import Mathlib

/-!
# Song.cpp: a shallow embedding and its verified properties

The development embeds `src/Song.cpp` (the `Song` record of a small music
library) in Lean and proves properties of the embedded functions.

Conventions of the embedding

* `std::string` is a sequence of bytes: `CppString := List (Fin 256)`.  String
  literals of the source are UTF-8 encoded (`lit`).
* `int` is `Int`.  The properties below hold for all integers, hence for all
  32-bit ones.  The one arithmetic operation of the source, `next_id_++`, is
  taken with the 32-bit two's complement wrap-around of the compiled program
  (`wrap_int`).
* `std::isspace` / `std::tolower` are the ones of the default "C" locale (the
  source never changes the locale).
* Iterators and indices are positions in the list.  Loops over indices are
  structural recursions on a fuel argument which the caller sets to the
  length of the traversed container; the lemmas of the second part show that
  this is always enough for the loop to stop by its own condition.
* `std::cout <<` is modelled by returning the list of chunks written.
* The static counter `Song::next_id_` is threaded explicitly through the
  constructor.
-/

/-! ## Part 1: definitions -/

/-- One `char` of a `std::string`, seen as `unsigned char`. -/
abbrev Byte := Fin 256

/-- A `std::string`: its bytes, in order. -/
abbrev CppString := List Byte

/-- The bytes of a string literal of the (UTF-8 encoded) source file. -/
def lit (s : String) : CppString :=
  s.toUTF8.data.toList.map (fun b => b.val)

/-- The function `std::isspace` in the "C" locale: space, `\t`, `\n`, `\v`, `\f`, `\r`. -/
def isspace (c : Byte) : Bool :=
  decide (c.val = 32 ∨ (9 ≤ c.val ∧ c.val ≤ 13))

/-- The function `std::tolower` in the "C" locale: `A..Z` go to `a..z`, every other byte
is left alone. -/
def tolower (c : Byte) : Byte :=
  if h : 65 ≤ c.val ∧ c.val ≤ 90 then ⟨c.val + 32, by omega⟩ else c

/-- First loop of `trim_copy` (Song.cpp:19-21):
`while (start_it != s.end() && isspace(*start_it)) ++start_it;`
on positions. -/
def trim_copy.skip_front (s : CppString) : Nat → Nat → Nat
  | 0, start_it => start_it
  | fuel + 1, start_it =>
    if start_it ≠ s.length ∧ isspace (s.getD start_it 0) = true then
      trim_copy.skip_front s fuel (start_it + 1)
    else start_it

/-- Second loop of `trim_copy` (Song.cpp:24-26):
`while (end_it >= start_it && isspace(*end_it)) --end_it;`
on positions; `end_it` is an integer so that a step below position `0` would be visible. -/
def trim_copy.skip_back (s : CppString) (start_it : Nat) : Nat → Int → Int
  | 0, end_it => end_it
  | fuel + 1, end_it =>
    if end_it ≥ (start_it : Int) ∧ isspace (s.getD end_it.toNat 0) = true then
      trim_copy.skip_back s start_it fuel (end_it - 1)
    else end_it

/-- The function `trim_copy` (Song.cpp:15-29). The result is the range
`[start_it, end_it + 1)` of `s`. -/
def trim_copy (s : CppString) : CppString :=
  if s.isEmpty then s
  else
    let start_it := trim_copy.skip_front s s.length 0
    let end_it := trim_copy.skip_back s start_it s.length ((s.length : Int) - 1)
    (s.take (end_it + 1).toNat).drop start_it

/-- The function `to_lower_copy` (Song.cpp:36-43): every byte is pushed through `tolower`. -/
def to_lower_copy (s : CppString) : CppString :=
  s.map tolower

/-- The function `join_tags` (Song.cpp:50-59): `tags[0]`, then `", "` and `tags[i]` for
every further index. -/
def join_tags : List CppString → CppString
  | [] => lit ""
  | t0 :: rest => rest.foldl (fun oss t => oss ++ lit ", " ++ t) t0

/-- The library function `std::string::find(needle)` from position `0`: the lowest
position at which `needle` starts in the haystack, `none` for `npos`. The second
argument is the position of the first byte of the remaining haystack. -/
def find_at (needle : CppString) : CppString → Nat → Option Nat
  | [], pos => if needle.isEmpty then some pos else none
  | c :: rest, pos =>
    if needle.isPrefixOf (c :: rest) then some pos else find_at needle rest (pos + 1)

/-- The call `hay.find(needle)`. -/
def find (hay needle : CppString) : Option Nat :=
  find_at needle hay 0

/-- The library operator `std::string < std::string`: bytes are compared as
`unsigned char`, and a proper initial segment is smaller. -/
def string_lt : CppString → CppString → Bool
  | [], [] => false
  | [], _ :: _ => true
  | _ :: _, [] => false
  | a :: as, b :: bs =>
    if a < b then true else if b < a then false else string_lt as bs

/-- The library constructor `std::string(count, ch)` called with an `int` count: a negative
count converts to a `size_t` above `max_size()` and the constructor throws
`std::length_error` (`none`). -/
def string_fill (count : Int) (ch : Byte) : Option CppString :=
  if count < 0 then none else some (List.replicate count.toNat ch)

/-- The text `ostream << int` writes: decimal digits, with a leading `-` when negative. -/
def decimal (i : Int) : CppString :=
  let digits : CppString := (Nat.toDigits 10 i.natAbs).map (fun c => Fin.ofNat c.toNat)
  if i < 0 then 45 :: digits else digits

/-- The class `Song`: its data members, under the names of the source. -/
structure Song where
  id_ : Int
  title_ : CppString
  artist_ : CppString
  duration_sec_ : Int
  rating_ : Int
  tags_ : List CppString
  valid_ : Bool
deriving DecidableEq, Repr

/-- Modelled from the spec: the default member initialisers of `Song.h`, which is
not among the sources. The spec says a failed construction "leaves the instance with
`valid = false` and default/unset field values"; strings and the tag vector are
empty by their default constructors, the integers are taken to be `0`. -/
def Song.unset : Song :=
  { id_ := 0, title_ := [], artist_ := [], duration_sec_ := 0, rating_ := 0,
    tags_ := [], valid_ := false }

/-- What a constructor call leaves behind: the object, the static counter
`Song::next_id_` and the chunks written to `std::cout`. -/
structure Constructed where
  song : Song
  next_id_ : Int
  out : List CppString
deriving DecidableEq, Repr

/-- What a call of a `bool` member function leaves behind: the returned value, the
object and the chunks written to `std::cout`. -/
structure Outcome where
  ret : Bool
  song : Song
  out : List CppString
deriving DecidableEq, Repr

/-- The value a 32-bit `int` holds when the arithmetic result `i` is stored in it: `i`
reduced to the range `[-2147483648, 2147483647]` modulo `2 ^ 32` (two's complement). -/
def wrap_int (i : Int) : Int :=
  (i + 2147483648) % 4294967296 - 2147483648

/-- The constructor `Song::Song` (Song.cpp:64-97); its first argument is the value of
`Song::next_id_` when it is called. The increment of `id_ = next_id_++` is the 32-bit one:
at `INT_MAX` the counter of the compiled program wraps around to `INT_MIN` (in the C++
standard the overflow is undefined behaviour). It is named `ctor` because a function
`Song.Song` would hide the structure inside its own namespace. -/
def Song.ctor (next_id_ : Int) (title artist : CppString) (duration_sec rating : Int) :
    Constructed :=
  let trimmed_title := trim_copy title
  let trimmed_artist := trim_copy artist
  if trimmed_title.isEmpty then
    ⟨Song.unset, next_id_, [lit "[错误] 标题不能为空\n"]⟩
  else if trimmed_artist.isEmpty then
    ⟨Song.unset, next_id_, [lit "[错误] 艺人不能为空\n"]⟩
  else if duration_sec ≤ 0 then
    ⟨Song.unset, next_id_, [lit "[错误] 时长必须为正整数（秒）\n"]⟩
  else if rating < 1 ∨ rating > 5 then
    ⟨Song.unset, next_id_, [lit "[错误] 评分必须在 1...5 之间\n"]⟩
  else
    ⟨{ Song.unset with
        id_ := next_id_, title_ := trimmed_title, artist_ := trimmed_artist,
        duration_sec_ := duration_sec, rating_ := rating, valid_ := true },
      wrap_int (next_id_ + 1), []⟩

/-- The member `Song::set_title` (Song.cpp:98-106). -/
def Song.set_title (s : Song) (t : CppString) : Outcome :=
  let trimmed_t := trim_copy t
  if trimmed_t.isEmpty then
    ⟨false, s, [lit "[提示] 标题不能为空，已忽略本次修改\n"]⟩
  else ⟨true, { s with title_ := trimmed_t }, []⟩

/-- The member `Song::set_artist` (Song.cpp:108-116). -/
def Song.set_artist (s : Song) (a : CppString) : Outcome :=
  let trimmed_a := trim_copy a
  if trimmed_a.isEmpty then
    ⟨false, s, [lit "[提示] 艺人不能为空，已忽略本次修改\n"]⟩
  else ⟨true, { s with artist_ := trimmed_a }, []⟩

/-- The member `Song::set_duration` (Song.cpp:118-125). -/
def Song.set_duration (s : Song) (sec : Int) : Outcome :=
  if sec ≤ 0 then
    ⟨false, s, [lit "[提示] 时长需为正整数，已忽略本次修改\n"]⟩
  else ⟨true, { s with duration_sec_ := sec }, []⟩

/-- The member `Song::set_rating` (Song.cpp:127-134). -/
def Song.set_rating (s : Song) (r : Int) : Outcome :=
  if r < 1 ∨ r > 5 then
    ⟨false, s, [lit "[提示] 评分需在 1..5，已忽略本次修改\n"]⟩
  else ⟨true, { s with rating_ := r }, []⟩

/-- The loop of `Song::add_tag` (Song.cpp:143-148): `true` when some existing tag equals
`lower_tag` once lowercased (the loop then returns early). -/
def Song.add_tag.exists_lower (lower_tag : CppString) : List CppString → Bool
  | [] => false
  | existing_tag :: rest =>
    if to_lower_copy existing_tag = lower_tag then true
    else Song.add_tag.exists_lower lower_tag rest

/-- The member `Song::add_tag` (Song.cpp:135-152). -/
def Song.add_tag (s : Song) (tag : CppString) : Outcome :=
  let trimmed_tag := trim_copy tag
  if trimmed_tag.isEmpty then
    ⟨false, s, [lit "[提示] 空标签已忽略\n"]⟩
  else
    let lower_tag := to_lower_copy trimmed_tag
    if Song.add_tag.exists_lower lower_tag s.tags_ then
      ⟨false, s, [lit "[提示] 标签已存在（忽略大小写）\n"]⟩
    else ⟨true, { s with tags_ := s.tags_ ++ [trimmed_tag] }, []⟩

/-- The loop of `Song::remove_tag` (Song.cpp:158-163) from index `i`: the tag vector
after `erase(begin() + i)` at the first index whose tag matches, `none` when the loop
runs to `tags_.size()` without a match. -/
def Song.remove_tag.loop (tags_ : List CppString) (lower_tag : CppString) :
    Nat → Nat → Option (List CppString)
  | 0, _ => none
  | fuel + 1, i =>
    if i < tags_.length then
      if to_lower_copy (tags_.getD i []) = lower_tag then some (tags_.eraseIdx i)
      else Song.remove_tag.loop tags_ lower_tag fuel (i + 1)
    else none

/-- The member `Song::remove_tag` (Song.cpp:154-167). -/
def Song.remove_tag (s : Song) (tag : CppString) : Outcome :=
  let trimmed_tag := trim_copy tag
  let lower_tag := to_lower_copy trimmed_tag
  match Song.remove_tag.loop s.tags_ lower_tag s.tags_.length 0 with
  | some erased => ⟨true, { s with tags_ := erased }, []⟩
  | none => ⟨false, s, [lit "[提示] 未找到该标签\n"]⟩

/-- The loop of `Song::matches_keyword` over the tags (Song.cpp:180-184). -/
def Song.matches_keyword.in_tags (lower_kw : CppString) : List CppString → Bool
  | [] => false
  | tag :: rest =>
    if (find (to_lower_copy tag) lower_kw).isSome then true
    else Song.matches_keyword.in_tags lower_kw rest

/-- The member `Song::matches_keyword` (Song.cpp:168-187); `find(..) != npos` is
`(find ..).isSome`. -/
def Song.matches_keyword (s : Song) (kw : CppString) : Bool :=
  let lower_kw := to_lower_copy (trim_copy kw)
  if lower_kw.isEmpty then false
  else if (find (to_lower_copy s.title_) lower_kw).isSome then true
  else if (find (to_lower_copy s.artist_) lower_kw).isSome then true
  else Song.matches_keyword.in_tags lower_kw s.tags_

/-- The stream operator `operator<<(std::ostream&, const Song&)` (Song.cpp:188-198): the
text written to the stream, `none` when `std::string(s.rating_, '*')` throws. -/
def Song.operator_lshift (s : Song) : Option CppString :=
  match string_fill s.rating_ 42 with
  | none => none
  | some stars =>
    let os := lit "[#" ++ decimal s.id_ ++ lit "] " ++ s.artist_ ++ lit " - " ++ s.title_
      ++ lit " (" ++ decimal s.duration_sec_ ++ lit "s) " ++ stars
    if ¬ s.tags_.isEmpty then
      some (os ++ lit "  [tags: " ++ join_tags s.tags_ ++ lit "]")
    else some os

/-- The comparison `operator<(const Song&, const Song&)` (Song.cpp:200-208). -/
def Song.operator_lt (a b : Song) : Bool :=
  if a.rating_ ≠ b.rating_ then decide (a.rating_ > b.rating_)
  else if a.title_ ≠ b.title_ then string_lt a.title_ b.title_
  else decide (a.id_ < b.id_)

/-- A call of one of the six `bool` member functions, with its argument. -/
inductive Call where
  | set_title (t : CppString)
  | set_artist (a : CppString)
  | set_duration (sec : Int)
  | set_rating (r : Int)
  | add_tag (tag : CppString)
  | remove_tag (tag : CppString)
deriving DecidableEq, Repr

/-- Performing a call on a song. -/
def Song.call (s : Song) : Call → Outcome
  | .set_title t => s.set_title t
  | .set_artist a => s.set_artist a
  | .set_duration sec => s.set_duration sec
  | .set_rating r => s.set_rating r
  | .add_tag tag => s.add_tag tag
  | .remove_tag tag => s.remove_tag tag

/-- The invariants the spec lists for a song whose `valid` flag is set (spec §3):
non-empty title and artist, positive duration, rating in `[1, 5]`, tags non-empty and
pairwise distinct once lowercased. -/
def Song.Valid (s : Song) : Prop :=
  s.valid_ = true ∧ s.title_ ≠ [] ∧ s.artist_ ≠ [] ∧ 0 < s.duration_sec_ ∧
    1 ≤ s.rating_ ∧ s.rating_ ≤ 5 ∧ (∀ t ∈ s.tags_, t ≠ []) ∧
    (s.tags_.map to_lower_copy).Nodup

/-- Every byte of the string is a whitespace byte. -/
def all_space (s : CppString) : Prop :=
  ∀ c ∈ s, isspace c = true

/-- Same text up to the letter case of its bytes and up to whitespace around it. -/
def case_space_variant (a b : CppString) : Prop :=
  ∃ wa wa' wb wb' ca cb, all_space wa ∧ all_space wa' ∧ all_space wb ∧ all_space wb' ∧
    a = wa ++ ca ++ wa' ∧ b = wb ++ cb ++ wb' ∧ ca.map tolower = cb.map tolower

/-- The song of the rendering example of the spec (§8), built by the constructor with
`next_id_ = 1` and two `add_tag` calls. -/
def song_imagine : Song :=
  (((Song.ctor 1 (lit "Imagine") (lit "John Lennon") 183 4).song.add_tag
    (lit "classic")).song.add_tag (lit "piano")).song

/-- The arguments of one constructor call. -/
structure CtorArgs where
  title : CppString
  artist : CppString
  duration_sec : Int
  rating : Int
deriving DecidableEq, Repr

/-- A run of constructor calls, one after the other: the objects constructed, in
construction order. The first argument is the value of `Song::next_id_` before the run;
every call starts from the counter the previous one left. -/
def construct_all : Int → List CtorArgs → List Song
  | _, [] => []
  | next_id_, a :: rest =>
    (Song.ctor next_id_ a.title a.artist a.duration_sec a.rating).song ::
      construct_all (Song.ctor next_id_ a.title a.artist a.duration_sec a.rating).next_id_ rest

/-- A sequence of calls of the `bool` member functions on one song: the song after the
last call. -/
def Song.calls (s : Song) : List Call → Song
  | [] => s
  | c :: cs => Song.calls (s.call c).song cs

/-- A song reachable from construction: the object one constructor call leaves (whether
the construction succeeds or not), after some sequence of setter, `add_tag` and
`remove_tag` calls. -/
def Song.Reachable (s : Song) : Prop :=
  ∃ (next_id_ : Int) (title artist : CppString) (duration_sec rating : Int) (cs : List Call),
    s = (Song.ctor next_id_ title artist duration_sec rating).song.calls cs

/-- The string has no leading and no trailing whitespace: its first and its last byte, if
any, are not whitespace. -/
def no_outer_space (s : CppString) : Prop :=
  (∀ c, s.head? = some c → isspace c = false) ∧ (∀ c, s.getLast? = some c → isspace c = false)

/-- The list of songs is arranged so that no element is less, by `operator<`, than an
element before it. -/
def arranged (l : List Song) : Prop :=
  l.Pairwise (fun a b => b.operator_lt a = false)

/-- The songs of the ordering example of the spec (§8): constructed in this order, from
the counter value `1`, with ratings 5, 3, 5 and titles "B", "X", "A". -/
def songs_bxa : List Song :=
  construct_all 1
    [⟨lit "B", lit "artist", 200, 5⟩, ⟨lit "X", lit "artist", 200, 3⟩,
      ⟨lit "A", lit "artist", 200, 5⟩]

/-- The song of the tag example of the spec (§8): a valid song without tags. -/
def song_plain : Song :=
  (Song.ctor 1 (lit "Imagine") (lit "John Lennon") 183 4).song

/-- What holds of every song reachable from construction: title, artist and tags are stored
trimmed, the tags are non-empty and pairwise distinct once lowercased, and a song whose
valid flag is set has a non-empty title and artist, a positive duration and a rating in
`[1, 5]`. -/
def Song.Inv (s : Song) : Prop :=
  trim_copy s.title_ = s.title_ ∧ trim_copy s.artist_ = s.artist_ ∧
    (∀ t ∈ s.tags_, t ≠ [] ∧ trim_copy t = t) ∧ (s.tags_.map to_lower_copy).Nodup ∧
    (s.valid_ = true → s.title_ ≠ [] ∧ s.artist_ ≠ [] ∧ 0 < s.duration_sec_ ∧
      1 ≤ s.rating_ ∧ s.rating_ ≤ 5)

/-- The chunk is one line: it ends with a line feed and holds no other line feed. -/
def is_line (m : CppString) : Prop :=
  m.getLast? = some 10 ∧ m.count 10 = 1



/-! ## Part 2: lemmas about the helper functions -/

/-- The byte `0`, the default of the position look-ups, is not whitespace. -/
theorem isspace_zero : isspace 0 = false := by decide

/-- Inside the string the position look-up returns the byte at that position. -/
theorem getD_of_lt (s : CppString) (i : Nat) (h : i < s.length) : s.getD i 0 = s[i] := by
  simp [List.getD_eq_getElem?_getD, h]

/-- With fuel for the rest of the string, the first loop of `trim_copy` stops right after
the longest run of whitespace that starts at its position. -/
theorem skip_front_eq (s : CppString) :
    ∀ (fuel i : Nat), s.length - i ≤ fuel →
      trim_copy.skip_front s fuel i = i + ((s.drop i).takeWhile isspace).length := by
  intro fuel
  induction fuel with
  | zero =>
    intro i h
    have : s.drop i = [] := List.drop_eq_nil_of_le (by omega)
    simp [trim_copy.skip_front, this]
  | succ n ih =>
    intro i h
    unfold trim_copy.skip_front
    by_cases hi : i < s.length
    · have hd : s.drop i = s[i] :: s.drop (i + 1) := List.drop_eq_getElem_cons hi
      rw [getD_of_lt s i hi, hd]
      by_cases hsp : isspace s[i] = true
      · rw [if_pos ⟨by omega, hsp⟩, ih (i + 1) (by omega), List.takeWhile_cons_of_pos hsp]
        simp only [List.length_cons]
        omega
      · rw [if_neg (fun hc => hsp hc.2), List.takeWhile_cons_of_neg hsp]
        simp
    · have hnil : s.drop i = [] := List.drop_eq_nil_of_le (by omega)
      have hget : s.getD i 0 = 0 := by
        simp [List.getD_eq_getElem?_getD, List.getElem?_eq_none (Nat.le_of_not_lt hi)]
      rw [hget, hnil, if_neg (fun hc => by simp [isspace_zero] at hc)]
      simp

/-- With fuel for the part of the string before `k`, the second loop of `trim_copy`,
started at position `k - 1`, cuts the range `[start_it, k)` down to what is left of it once
its trailing whitespace is dropped. -/
theorem skip_back_eq (s : CppString) (start_it : Nat) :
    ∀ (fuel k : Nat), k ≤ s.length → k ≤ fuel →
      (s.take (trim_copy.skip_back s start_it fuel ((k : Int) - 1) + 1).toNat).drop start_it
        = ((s.take k).drop start_it).rdropWhile isspace := by
  intro fuel
  induction fuel with
  | zero =>
    intro k _ hk
    have : k = 0 := by omega
    subst this
    simp [trim_copy.skip_back]
  | succ n ih =>
    intro k hks hk
    unfold trim_copy.skip_back
    by_cases hlow : (k : Int) - 1 ≥ (start_it : Int)
    · -- the range is not empty: its last byte is `s[k - 1]`
      obtain ⟨j, rfl⟩ : ∃ j, k = j + 1 := ⟨k - 1, by omega⟩
      have hj : j < s.length := by omega
      have hcast : ((j + 1 : Nat) : Int) - 1 = (j : Int) := by omega
      have hsplit : (s.take (j + 1)).drop start_it = (s.take j).drop start_it ++ [s[j]] := by
        rw [List.take_succ, List.getElem?_eq_getElem hj]
        simp only [Option.toList_some]
        rw [List.drop_append_of_le_length (by simp; omega)]
      rw [hcast, Int.toNat_ofNat, getD_of_lt s j hj, hsplit]
      by_cases hsp : isspace s[j] = true
      · rw [if_pos ⟨by omega, hsp⟩, List.rdropWhile_concat_pos _ _ _ hsp]
        exact ih j (by omega) (by omega)
      · rw [if_neg (fun hc => hsp hc.2), List.rdropWhile_concat_neg _ _ _ hsp, ← hsplit]
        congr 2
    · rw [if_neg (fun hc => hlow hc.1)]
      have h1 : ((k : Int) - 1 + 1).toNat = k := by omega
      have h2 : (s.take k).drop start_it = [] :=
        List.drop_eq_nil_of_le (by simp; omega)
      rw [h1, h2]
      simp

/-- The second loop of `trim_copy` never steps more than one position below `start_it`,
and never moves forward: the range `[start_it, end_it + 1)` it leaves is well formed and
`end_it` is only dereferenced at positions of the string. -/
theorem skip_back_range (s : CppString) (start_it : Nat) :
    ∀ (fuel : Nat) (end_it : Int), (start_it : Int) - 1 ≤ end_it →
      (start_it : Int) - 1 ≤ trim_copy.skip_back s start_it fuel end_it ∧
        trim_copy.skip_back s start_it fuel end_it ≤ end_it := by
  intro fuel
  induction fuel with
  | zero => intro e he; exact ⟨he, le_refl _⟩
  | succ n ih =>
    intro e he
    unfold trim_copy.skip_back
    split
    · rename_i hc
      have := ih (e - 1) (by omega)
      exact ⟨this.1, by omega⟩
    · exact ⟨he, le_refl _⟩

/-- Dropping as many bytes as the leading run of `p` is long is `dropWhile p`. -/
theorem drop_length_takeWhile (p : Byte → Bool) (l : List Byte) :
    l.drop (l.takeWhile p).length = l.dropWhile p := by
  induction l with
  | nil => rfl
  | cons a l ih =>
    by_cases h : p a = true
    · rw [List.takeWhile_cons_of_pos h, List.dropWhile_cons_of_pos h]
      simpa using ih
    · rw [List.takeWhile_cons_of_neg h, List.dropWhile_cons_of_neg h]
      rfl

/-- The function `trim_copy` drops the leading and then the trailing whitespace. -/
theorem trim_copy_eq (s : CppString) :
    trim_copy s = (s.dropWhile isspace).rdropWhile isspace := by
  unfold trim_copy
  cases s with
  | nil => simp
  | cons c cs =>
    simp only [List.isEmpty_cons, Bool.false_eq_true, if_false]
    rw [skip_back_eq (c :: cs) _ (c :: cs).length (c :: cs).length (le_refl _) (le_refl _)]
    rw [skip_front_eq (c :: cs) (c :: cs).length 0 (by omega)]
    congr 1
    rw [List.take_length, List.drop_zero, Nat.zero_add]
    exact drop_length_takeWhile isspace (c :: cs)

/-- The loop of `add_tag` finds a duplicate exactly when some stored tag has the lowercase
form `k`. -/
theorem add_tag_exists_lower_iff (k : CppString) (tags : List CppString) :
    Song.add_tag.exists_lower k tags = true ↔ ∃ e ∈ tags, to_lower_copy e = k := by
  induction tags with
  | nil => simp [Song.add_tag.exists_lower]
  | cons t rest ih =>
    unfold Song.add_tag.exists_lower
    by_cases h : to_lower_copy t = k
    · simp [h]
    · simp [h, ih]

/-- The loop of `remove_tag`, started at index `i` with enough fuel, finds nothing when no
tag from index `i` on matches. -/
theorem remove_tag_loop_none (tags : List CppString) (k : CppString) :
    ∀ (fuel i : Nat), (∀ e ∈ tags.drop i, to_lower_copy e ≠ k) →
      Song.remove_tag.loop tags k fuel i = none := by
  intro fuel
  induction fuel with
  | zero => intro i _; rfl
  | succ n ih =>
    intro i h
    unfold Song.remove_tag.loop
    by_cases hi : i < tags.length
    · have hd : tags.drop i = tags[i] :: tags.drop (i + 1) := List.drop_eq_getElem_cons hi
      have hne : to_lower_copy tags[i] ≠ k := h _ (by rw [hd]; exact List.mem_cons_self _ _)
      have hget : tags.getD i [] = tags[i] := by simp [List.getD_eq_getElem?_getD, hi]
      rw [if_pos hi, hget, if_neg hne]
      apply ih
      intro e he
      exact h e (by rw [hd]; exact List.mem_cons_of_mem _ he)
    · rw [if_neg hi]

/-- The loop of `remove_tag`, started at index `i` with enough fuel, erases the first
matching tag at or after index `i`. -/
theorem remove_tag_loop_some (tags : List CppString) (k : CppString) :
    ∀ (fuel i : Nat) (mid : List CppString) (x : CppString) (post : List CppString),
      tags.drop i = mid ++ x :: post → (∀ e ∈ mid, to_lower_copy e ≠ k) →
      to_lower_copy x = k → mid.length < fuel →
      Song.remove_tag.loop tags k fuel i = some (tags.take i ++ mid ++ post) := by
  intro fuel
  induction fuel with
  | zero => intro i mid x post _ _ _ hf; omega
  | succ n ih =>
    intro i mid x post hsplit hmid hx hf
    have hi : i < tags.length := by
      by_contra hcon
      have : tags.drop i = [] := List.drop_eq_nil_of_le (by omega)
      rw [this] at hsplit
      simp at hsplit
    have hd : tags.drop i = tags[i] :: tags.drop (i + 1) := List.drop_eq_getElem_cons hi
    have hget : tags.getD i [] = tags[i] := by simp [List.getD_eq_getElem?_getD, hi]
    unfold Song.remove_tag.loop
    rw [if_pos hi, hget]
    cases mid with
    | nil =>
      rw [hd] at hsplit
      simp only [List.nil_append, List.cons.injEq] at hsplit
      rw [if_pos (by rw [hsplit.1]; exact hx)]
      rw [List.eraseIdx_eq_take_drop_succ, hsplit.2]
      simp
    | cons m mid' =>
      rw [hd] at hsplit
      simp only [List.cons_append, List.cons.injEq] at hsplit
      have hne : to_lower_copy tags[i] ≠ k := by
        rw [hsplit.1]; exact hmid m (by simp)
      rw [if_neg hne]
      rw [ih (i + 1) mid' x post hsplit.2 (fun e he => hmid e (List.mem_cons_of_mem _ he)) hx
        (by simp at hf; omega)]
      congr 1
      rw [List.take_succ, List.getElem?_eq_getElem hi, hsplit.1]
      simp

/-- Every list either has no element matching `k`, or splits at its first match. -/
theorem first_match_split (k : CppString) (l : List CppString) :
    (∀ e ∈ l, to_lower_copy e ≠ k) ∨
    ∃ pre x post, l = pre ++ x :: post ∧ (∀ e ∈ pre, to_lower_copy e ≠ k) ∧
      to_lower_copy x = k := by
  induction l with
  | nil => left; simp
  | cons t rest ih =>
    by_cases ht : to_lower_copy t = k
    · right; exact ⟨[], t, rest, rfl, by simp, ht⟩
    · rcases ih with h | ⟨pre, x, post, h1, h2, h3⟩
      · left
        intro e he
        rcases List.mem_cons.mp he with rfl | he
        · exact ht
        · exact h e he
      · right
        refine ⟨t :: pre, x, post, by rw [h1]; rfl, ?_, h3⟩
        intro e he
        rcases List.mem_cons.mp he with rfl | he
        · exact ht
        · exact h2 e he

/-- Without a matching tag `remove_tag` fails and leaves the song alone. -/
theorem remove_tag_none (s : Song) (tag : CppString)
    (h : ∀ e ∈ s.tags_, to_lower_copy e ≠ to_lower_copy (trim_copy tag)) :
    s.remove_tag tag = ⟨false, s, [lit "[提示] 未找到该标签\n"]⟩ := by
  unfold Song.remove_tag
  simp only []
  rw [remove_tag_loop_none s.tags_ _ s.tags_.length 0 (by simpa using h)]

/-- With a first matching tag `x`, `remove_tag` succeeds and erases exactly `x`. -/
theorem remove_tag_some (s : Song) (tag : CppString) (pre : List CppString) (x : CppString)
    (post : List CppString) (hs : s.tags_ = pre ++ x :: post)
    (hpre : ∀ e ∈ pre, to_lower_copy e ≠ to_lower_copy (trim_copy tag))
    (hx : to_lower_copy x = to_lower_copy (trim_copy tag)) :
    s.remove_tag tag = ⟨true, { s with tags_ := pre ++ post }, []⟩ := by
  unfold Song.remove_tag
  simp only []
  rw [remove_tag_loop_some s.tags_ _ s.tags_.length 0 pre x post (by simpa using hs) hpre hx
    (by rw [hs]; simp)]
  simp

/-- Lowercasing a byte does not change whether it is whitespace. -/
theorem isspace_tolower (c : Byte) : isspace (tolower c) = isspace c := by
  unfold isspace tolower
  split
  · rename_i h
    simp only [decide_eq_decide]
    omega
  · rfl

/-- The Boolean test for an all-whitespace string. -/
theorem all_space_of_all (s : CppString) (h : s.all isspace = true) : all_space s := by
  intro c hc
  exact List.all_eq_true.mp h c hc

/-- A string is all whitespace exactly when dropping leading whitespace leaves nothing. -/
theorem all_space_iff_dropWhile (s : CppString) : all_space s ↔ s.dropWhile isspace = [] := by
  rw [List.dropWhile_eq_nil_iff]; rfl

/-- The trimmed string is empty exactly when the string is empty or all whitespace. -/
theorem trim_copy_eq_nil_iff (s : CppString) : trim_copy s = [] ↔ all_space s := by
  rw [trim_copy_eq, List.rdropWhile_eq_nil_iff]
  constructor
  · intro h
    rw [all_space_iff_dropWhile]
    by_contra hne
    have hhead := List.head_dropWhile_not isspace s hne
    rw [h _ (List.head_mem hne)] at hhead
    exact Bool.noConfusion hhead
  · intro h x hx
    rw [(all_space_iff_dropWhile s).mp h] at hx
    simp at hx

/-- Trailing whitespace is dropped from the right. -/
theorem rdropWhile_append_space (l w : CppString) (hw : all_space w) :
    (l ++ w).rdropWhile isspace = l.rdropWhile isspace := by
  unfold List.rdropWhile
  rw [List.reverse_append, List.dropWhile_append_of_pos]
  intro a ha
  exact hw a (List.mem_reverse.mp ha)

/-- Whitespace around a string does not change what `trim_copy` returns. -/
theorem trim_copy_pad (w1 c w2 : CppString) (h1 : all_space w1) (h2 : all_space w2) :
    trim_copy (w1 ++ c ++ w2) = trim_copy c := by
  rw [trim_copy_eq, trim_copy_eq, List.append_assoc, List.dropWhile_append_of_pos h1,
    List.dropWhile_append]
  by_cases hc : (c.dropWhile isspace).isEmpty = true
  · rw [if_pos hc, (all_space_iff_dropWhile w2).mp h2, List.isEmpty_iff.mp hc]
  · rw [if_neg hc, rdropWhile_append_space _ _ h2]

/-- Lowercasing commutes with trimming. -/
theorem to_lower_trim_copy (s : CppString) :
    to_lower_copy (trim_copy s) = trim_copy (to_lower_copy s) := by
  have hcomp : isspace ∘ tolower = isspace := funext isspace_tolower
  rw [trim_copy_eq, trim_copy_eq]
  unfold to_lower_copy List.rdropWhile
  rw [List.dropWhile_map, ← List.map_reverse, List.dropWhile_map, hcomp, List.map_reverse]

/-- Variants up to case and outer whitespace have the same trimmed lowercase form. -/
theorem case_space_variant_lower_trim (a b : CppString) (h : case_space_variant a b) :
    to_lower_copy (trim_copy a) = to_lower_copy (trim_copy b) := by
  obtain ⟨wa, wa', wb, wb', ca, cb, h1, h2, h3, h4, rfl, rfl, hcase⟩ := h
  rw [trim_copy_pad _ _ _ h1 h2, trim_copy_pad _ _ _ h3 h4, to_lower_trim_copy,
    to_lower_trim_copy]
  unfold to_lower_copy
  rw [hcase]

/-- The search succeeds exactly when the needle is a contiguous part of the haystack. -/
theorem find_at_isSome_iff (needle : CppString) :
    ∀ (hay : CppString) (pos : Nat), (find_at needle hay pos).isSome = true ↔ needle <:+: hay := by
  intro hay
  induction hay with
  | nil =>
    intro pos
    unfold find_at
    by_cases h : needle = []
    · simp [h]
    · simp [h]
  | cons c rest ih =>
    intro pos
    unfold find_at
    rw [List.infix_cons_iff]
    by_cases h : needle.isPrefixOf (c :: rest) = true
    · rw [if_pos h]
      simp only [Option.isSome_some, true_iff]
      exact Or.inl (List.isPrefixOf_iff_prefix.mp h)
    · rw [if_neg h, ih]
      constructor
      · exact Or.inr
      · rintro (hp | hi)
        · exact absurd (List.isPrefixOf_iff_prefix.mpr hp) h
        · exact hi

/-- The call `hay.find(needle) != npos` says that `needle` is a contiguous part of `hay`. -/
theorem find_isSome_iff (hay needle : CppString) :
    (find hay needle).isSome = true ↔ needle <:+: hay :=
  find_at_isSome_iff needle hay 0

/-- The tag loop of `matches_keyword` succeeds exactly when some lowercased tag contains
the keyword. -/
theorem matches_keyword_in_tags_iff (k : CppString) (tags : List CppString) :
    Song.matches_keyword.in_tags k tags = true ↔ ∃ t ∈ tags, k <:+: to_lower_copy t := by
  induction tags with
  | nil => simp [Song.matches_keyword.in_tags]
  | cons t rest ih =>
    unfold Song.matches_keyword.in_tags
    by_cases h : (find (to_lower_copy t) k).isSome = true
    · rw [if_pos h]
      simp only [true_iff]
      exact ⟨t, List.mem_cons_self _ _, (find_isSome_iff _ _).mp h⟩
    · rw [if_neg h, ih]
      rw [find_isSome_iff] at h
      simp [h]

/-- What `matches_keyword` returns for a keyword that is not blank. -/
theorem matches_keyword_eq (s : Song) (kw : CppString)
    (hk : to_lower_copy (trim_copy kw) ≠ []) :
    s.matches_keyword kw = true ↔
      (to_lower_copy (trim_copy kw) <:+: to_lower_copy s.title_ ∨
        to_lower_copy (trim_copy kw) <:+: to_lower_copy s.artist_ ∨
        ∃ t ∈ s.tags_, to_lower_copy (trim_copy kw) <:+: to_lower_copy t) := by
  unfold Song.matches_keyword
  simp only [List.isEmpty_iff, hk, if_false]
  by_cases h1 : (find (to_lower_copy s.title_) (to_lower_copy (trim_copy kw))).isSome = true
  · rw [if_pos h1]
    simp [(find_isSome_iff _ _).mp h1]
  rw [if_neg h1]
  rw [find_isSome_iff] at h1
  by_cases h2 : (find (to_lower_copy s.artist_) (to_lower_copy (trim_copy kw))).isSome = true
  · rw [if_pos h2]
    simp [(find_isSome_iff _ _).mp h2]
  rw [if_neg h2, matches_keyword_in_tags_iff]
  rw [find_isSome_iff] at h2
  simp [h1, h2]

/-- Keywords that are variants of each other give the same result. -/
theorem matches_keyword_variant (s : Song) (kw kw' : CppString)
    (h : case_space_variant kw kw') : s.matches_keyword kw' = s.matches_keyword kw := by
  unfold Song.matches_keyword
  rw [case_space_variant_lower_trim kw kw' h]

/-- A blank keyword matches nothing. -/
theorem matches_keyword_blank (s : Song) (kw : CppString) (h : all_space kw) :
    s.matches_keyword kw = false := by
  unfold Song.matches_keyword
  rw [(trim_copy_eq_nil_iff kw).mpr h]
  rfl

/-- The loop of `join_tags` appends the separator and the tag for every further tag. -/
theorem join_tags_foldl (sep : CppString) (rest : List CppString) :
    ∀ acc : CppString, rest.foldl (fun oss t => oss ++ sep ++ t) acc
      = acc ++ (rest.map (fun t => sep ++ t)).flatten := by
  induction rest with
  | nil => intro acc; simp
  | cons t rest ih =>
    intro acc
    rw [List.foldl_cons, ih]
    simp

/-- Joining a non-empty list with a separator, unfolded at its head. -/
theorem intercalate_cons (sep t0 : CppString) (rest : List CppString) :
    sep.intercalate (t0 :: rest) = t0 ++ (rest.map (fun t => sep ++ t)).flatten := by
  induction rest generalizing t0 with
  | nil => simp [List.intercalate]
  | cons t rest ih =>
    have h := ih t
    simp only [List.intercalate, List.intersperse, List.flatten, List.map] at h ⊢
    rw [h]
    simp

/-- The function `join_tags` joins the tags with `", "`. -/
theorem join_tags_eq (tags : List CppString) :
    join_tags tags = (lit ", ").intercalate tags := by
  cases tags with
  | nil => decide
  | cons t0 rest =>
    rw [intercalate_cons]
    exact join_tags_foldl _ rest t0

/-- The string comparison is the lexicographic order of the bytes. -/
theorem string_lt_iff_lex : ∀ (a b : CppString),
    string_lt a b = true ↔ List.Lex (· < ·) a b := by
  intro a
  induction a with
  | nil =>
    intro b
    cases b with
    | nil => simp [string_lt, List.Lex.not_nil_right]
    | cons b bs => simp [string_lt, List.Lex.nil]
  | cons a as ih =>
    intro b
    cases b with
    | nil => simp [string_lt, List.Lex.not_nil_right]
    | cons b bs =>
      unfold string_lt
      by_cases h1 : a < b
      · simp [h1, List.Lex.rel h1]
      · by_cases h2 : b < a
        · simp only [h1, h2, if_true, if_false, Bool.false_eq_true, false_iff]
          intro hlex
          cases hlex with
          | cons h => exact lt_irrefl _ h2
          | rel h => exact h1 h
        · have hab : a = b := le_antisymm (not_lt.mp h2) (not_lt.mp h1)
          subst hab
          simp only [h1, if_false]
          rw [ih bs, List.Lex.cons_iff]

/-- Two strings are equal or one is lexicographically smaller. -/
theorem lex_trichotomy (a b : CppString) :
    List.Lex (· < ·) a b ∨ a = b ∨ List.Lex (· < ·) b a := by
  haveI : IsTrichotomous Byte (· < ·) := ⟨lt_trichotomy⟩
  exact trichotomous_of (List.Lex (· < ·)) a b

/-- The lexicographic order of strings is transitive. -/
theorem lex_trans {a b c : CppString} (h1 : List.Lex (· < ·) a b)
    (h2 : List.Lex (· < ·) b c) : List.Lex (· < ·) a c := by
  haveI : IsStrictTotalOrder Byte (· < ·) := inferInstance
  exact trans_of (List.Lex (· < ·)) h1 h2

/-- The comparison of songs, as a rule on rating, title and id. -/
theorem operator_lt_iff (a b : Song) :
    (a.operator_lt b = true ↔
      (a.rating_ > b.rating_ ∨
        (a.rating_ = b.rating_ ∧ List.Lex (· < ·) a.title_ b.title_) ∨
        (a.rating_ = b.rating_ ∧ a.title_ = b.title_ ∧ a.id_ < b.id_))) := by
  unfold Song.operator_lt
  by_cases hr : a.rating_ = b.rating_
  · by_cases ht : a.title_ = b.title_
    · have hirr : ¬ List.Lex (· < ·) b.title_ b.title_ := irrefl_of (List.Lex (· < ·)) _
      simp [hr, ht, hirr]
    · have hne : ¬ (a.title_ = b.title_) := ht
      simp only [hr, ne_eq, not_true_eq_false, if_false, ht, not_false_eq_true, if_true,
        string_lt_iff_lex, gt_iff_lt, lt_self_iff_false, true_and, false_and, or_false, false_or]
  · have : ¬ (a.rating_ = b.rating_) := hr
    simp [hr]

/-- Two songs are incomparable exactly when rating, title and id agree. -/
theorem operator_lt_incomparable_iff (a b : Song) :
    (a.operator_lt b = false ∧ b.operator_lt a = false) ↔
      (a.rating_ = b.rating_ ∧ a.title_ = b.title_ ∧ a.id_ = b.id_) := by
  have hab := operator_lt_iff a b
  have hba := operator_lt_iff b a
  constructor
  · rintro ⟨h1, h2⟩
    have n1 : ¬ (a.operator_lt b = true) := by simp [h1]
    have n2 : ¬ (b.operator_lt a = true) := by simp [h2]
    rw [hab] at n1
    rw [hba] at n2
    push_neg at n1 n2
    have hr : a.rating_ = b.rating_ := by omega
    have ht : a.title_ = b.title_ := by
      rcases lex_trichotomy a.title_ b.title_ with h | h | h
      · exact absurd h (n1.2.1 hr)
      · exact h
      · exact absurd h (n2.2.1 hr.symm)
    have h3 := n1.2.2 hr ht
    have h4 := n2.2.2 hr.symm ht.symm
    exact ⟨hr, ht, by omega⟩
  · rintro ⟨hr, ht, hi⟩
    have hirr : ¬ List.Lex (· < ·) b.title_ b.title_ := irrefl_of (List.Lex (· < ·)) _
    constructor
    · rw [← Bool.not_eq_true, hab]
      simp [hr, ht, hi, hirr]
    · rw [← Bool.not_eq_true, hba]
      simp [hr, ht, hi, hirr]

/-! ### Evaluations on concrete inputs -/

/-- Trimming on a concrete string. -/
theorem trim_copy_eval : trim_copy (lit "  ab c \n") = lit "ab c" := by decide

/-- Lowercasing on a concrete string. -/
theorem to_lower_copy_eval : to_lower_copy (lit "AbZ[@z") = lit "abz[@z" := by decide

/-- Searching on concrete strings. -/
theorem find_eval :
    find (lit "hello") (lit "ll") = some 2 ∧ find (lit "hello") (lit "lo!") = none := by
  decide

/-- Decimal rendering of concrete integers. -/
theorem decimal_eval : decimal 183 = lit "183" ∧ decimal (-20) = lit "-20" := by decide

/-- The fields of the example song. -/
theorem song_imagine_eval :
    song_imagine =
      ⟨1, lit "Imagine", lit "John Lennon", 183, 4, [lit "classic", lit "piano"], true⟩ := by
  decide

/-- The example song satisfies the invariants of a valid song. -/
theorem song_imagine_valid : song_imagine.Valid := by
  rw [song_imagine_eval]
  unfold Song.Valid
  decide

/-! ## Part 3: the properties of the specification -/

/-- C1: for every title, artist, duration and rating (and every value of the identifier
counter), the constructed song has `valid == true` if and only if the trimmed title is
non-empty, the trimmed artist is non-empty, the duration is positive and the rating is in
`[1, 5]`; in that case title and artist are the trimmed inputs, duration and rating are the
given ones, the tag list is empty and the id is the value of the counter before the call;
in every other case `valid == false`. -/
theorem ctor_valid_iff_and_fields (next_id_ : Int) (title artist : CppString)
    (duration_sec rating : Int) :
    ((Song.ctor next_id_ title artist duration_sec rating).song.valid_ = true ↔
      (trim_copy title ≠ [] ∧ trim_copy artist ≠ [] ∧ 0 < duration_sec ∧
        1 ≤ rating ∧ rating ≤ 5)) ∧
    ((Song.ctor next_id_ title artist duration_sec rating).song.valid_ = true →
      (Song.ctor next_id_ title artist duration_sec rating).song.title_ = trim_copy title ∧
      (Song.ctor next_id_ title artist duration_sec rating).song.artist_ = trim_copy artist ∧
      (Song.ctor next_id_ title artist duration_sec rating).song.duration_sec_ = duration_sec ∧
      (Song.ctor next_id_ title artist duration_sec rating).song.rating_ = rating ∧
      (Song.ctor next_id_ title artist duration_sec rating).song.tags_ = [] ∧
      (Song.ctor next_id_ title artist duration_sec rating).song.id_ = next_id_) ∧
    (¬ (trim_copy title ≠ [] ∧ trim_copy artist ≠ [] ∧ 0 < duration_sec ∧
        1 ≤ rating ∧ rating ≤ 5) →
      (Song.ctor next_id_ title artist duration_sec rating).song.valid_ = false) := by
  unfold Song.ctor
  by_cases h1 : trim_copy title = []
  · simp [h1, Song.unset]
  by_cases h2 : trim_copy artist = []
  · simp [h1, h2, Song.unset]
  by_cases h3 : duration_sec ≤ 0
  · simp [h1, h2, h3, Song.unset]
  by_cases h4 : rating < 1 ∨ rating > 5
  · simp only [List.isEmpty_iff, h1, h2, h3, h4, if_true, if_false, Song.unset]
    simp [h1, h2]
    omega
  · simp only [List.isEmpty_iff, h1, h2, h3, h4, if_true, if_false, Song.unset]
    simp [h1, h2]
    omega

/-- C2: for every song and every call of `set_title`, `set_artist`, `set_duration`,
`set_rating`, `add_tag` or `remove_tag` with any argument, if the call returns `false`
then the song after the call equals the song before the call in every field. -/
theorem failed_call_leaves_song_unchanged (s : Song) (c : Call)
    (h : (s.call c).ret = false) : (s.call c).song = s := by
  cases c with
  | set_title t =>
    simp only [Song.call, Song.set_title] at h ⊢
    split at h <;> simp_all
  | set_artist a =>
    simp only [Song.call, Song.set_artist] at h ⊢
    split at h <;> simp_all
  | set_duration sec =>
    simp only [Song.call, Song.set_duration] at h ⊢
    split at h <;> simp_all
  | set_rating r =>
    simp only [Song.call, Song.set_rating] at h ⊢
    split at h <;> simp_all
  | add_tag tag =>
    simp only [Song.call, Song.add_tag] at h ⊢
    split at h
    · simp_all
    · split at h <;> simp_all
  | remove_tag tag =>
    simp only [Song.call, Song.remove_tag] at h ⊢
    split at h <;> simp_all

/-- Witness of C2: adding the tag `" PIANO "` to the example song fails (duplicate up to
case) and leaves the song as it was. -/
theorem failed_call_leaves_song_unchanged_witness :
    (song_imagine.call (.add_tag (lit " PIANO "))).ret = false ∧
      (song_imagine.call (.add_tag (lit " PIANO "))).song = song_imagine :=
  ⟨by decide, failed_call_leaves_song_unchanged song_imagine (.add_tag (lit " PIANO "))
    (by decide)⟩

/-- C3: each setter validates like the constructor and touches only its own field:
`set_title` / `set_artist` return `true` exactly when the trimmed argument is non-empty and
then store the trimmed argument, `set_duration` returns `true` exactly when the argument is
positive and then stores it, `set_rating` returns `true` exactly when the argument is in
`[1, 5]` and then stores it; on failure the field keeps its value; and in every case the
id, the valid flag, the tag list and the three other descriptive fields are unchanged. -/
theorem setters_validate_and_frame (s : Song) (t a : CppString) (sec r : Int) :
    (((s.set_title t).ret = true ↔ trim_copy t ≠ []) ∧
      ((s.set_title t).ret = true → (s.set_title t).song.title_ = trim_copy t) ∧
      ((s.set_title t).ret = false → (s.set_title t).song.title_ = s.title_) ∧
      (s.set_title t).song.id_ = s.id_ ∧ (s.set_title t).song.valid_ = s.valid_ ∧
      (s.set_title t).song.tags_ = s.tags_ ∧ (s.set_title t).song.artist_ = s.artist_ ∧
      (s.set_title t).song.duration_sec_ = s.duration_sec_ ∧
      (s.set_title t).song.rating_ = s.rating_) ∧
    (((s.set_artist a).ret = true ↔ trim_copy a ≠ []) ∧
      ((s.set_artist a).ret = true → (s.set_artist a).song.artist_ = trim_copy a) ∧
      ((s.set_artist a).ret = false → (s.set_artist a).song.artist_ = s.artist_) ∧
      (s.set_artist a).song.id_ = s.id_ ∧ (s.set_artist a).song.valid_ = s.valid_ ∧
      (s.set_artist a).song.tags_ = s.tags_ ∧ (s.set_artist a).song.title_ = s.title_ ∧
      (s.set_artist a).song.duration_sec_ = s.duration_sec_ ∧
      (s.set_artist a).song.rating_ = s.rating_) ∧
    (((s.set_duration sec).ret = true ↔ 0 < sec) ∧
      ((s.set_duration sec).ret = true → (s.set_duration sec).song.duration_sec_ = sec) ∧
      ((s.set_duration sec).ret = false →
        (s.set_duration sec).song.duration_sec_ = s.duration_sec_) ∧
      (s.set_duration sec).song.id_ = s.id_ ∧ (s.set_duration sec).song.valid_ = s.valid_ ∧
      (s.set_duration sec).song.tags_ = s.tags_ ∧ (s.set_duration sec).song.title_ = s.title_ ∧
      (s.set_duration sec).song.artist_ = s.artist_ ∧
      (s.set_duration sec).song.rating_ = s.rating_) ∧
    (((s.set_rating r).ret = true ↔ (1 ≤ r ∧ r ≤ 5)) ∧
      ((s.set_rating r).ret = true → (s.set_rating r).song.rating_ = r) ∧
      ((s.set_rating r).ret = false → (s.set_rating r).song.rating_ = s.rating_) ∧
      (s.set_rating r).song.id_ = s.id_ ∧ (s.set_rating r).song.valid_ = s.valid_ ∧
      (s.set_rating r).song.tags_ = s.tags_ ∧ (s.set_rating r).song.title_ = s.title_ ∧
      (s.set_rating r).song.artist_ = s.artist_ ∧
      (s.set_rating r).song.duration_sec_ = s.duration_sec_) := by
  refine ⟨?_, ?_, ?_, ?_⟩
  · unfold Song.set_title
    by_cases h : trim_copy t = [] <;> simp [h]
  · unfold Song.set_artist
    by_cases h : trim_copy a = [] <;> simp [h]
  · unfold Song.set_duration
    by_cases h : sec ≤ 0
    · simp [h]
    · simp only [h, if_false]
      simp
      omega
  · unfold Song.set_rating
    by_cases h : r < 1 ∨ r > 5
    · simp only [h, if_true]
      simp
      omega
    · simp only [h, if_false]
      simp
      omega

/-- C4: for every song and every tag, `add_tag` returns `true` if and only if the trimmed
tag is non-empty and no stored tag equals it once both are lowercased; when it returns
`true` the new tag list is the old one followed by the trimmed tag in its original letter
case, and no other field changes. -/
theorem add_tag_appends_iff_new (s : Song) (tag : CppString) :
    ((s.add_tag tag).ret = true ↔
      (trim_copy tag ≠ [] ∧
        ∀ e ∈ s.tags_, to_lower_copy e ≠ to_lower_copy (trim_copy tag))) ∧
    ((s.add_tag tag).ret = true →
      (s.add_tag tag).song = { s with tags_ := s.tags_ ++ [trim_copy tag] }) := by
  unfold Song.add_tag
  by_cases h1 : trim_copy tag = []
  · simp [h1]
  by_cases h2 : Song.add_tag.exists_lower (to_lower_copy (trim_copy tag)) s.tags_ = true
  · have := (add_tag_exists_lower_iff _ _).mp h2
    simp only [List.isEmpty_iff, h1, h2, if_true, if_false]
    simpa using fun _ => this
  · have h3 := h2
    rw [add_tag_exists_lower_iff] at h3
    simp only [List.isEmpty_iff, h1, h2, if_false]
    simpa using ⟨h1, fun e he hk => h3 ⟨e, he, hk⟩⟩

/-- C5: for every song and every tag, `remove_tag` returns `true` if and only if some stored
tag equals the trimmed tag once both are lowercased; when it returns `true` the tag list
was `pre ++ x :: post` with `x` the first matching entry, and the new tag list is
`pre ++ post` (one entry fewer, the others in their order); when no stored tag matches it
returns `false` and the length of the tag list is unchanged. -/
theorem remove_tag_erases_first_match (s : Song) (tag : CppString) :
    ((s.remove_tag tag).ret = true ↔
      ∃ e ∈ s.tags_, to_lower_copy e = to_lower_copy (trim_copy tag)) ∧
    ((s.remove_tag tag).ret = true →
      ∃ pre x post, s.tags_ = pre ++ x :: post ∧
        (∀ e ∈ pre, to_lower_copy e ≠ to_lower_copy (trim_copy tag)) ∧
        to_lower_copy x = to_lower_copy (trim_copy tag) ∧
        (s.remove_tag tag).song.tags_ = pre ++ post ∧
        (s.remove_tag tag).song.tags_.length + 1 = s.tags_.length) ∧
    ((∀ e ∈ s.tags_, to_lower_copy e ≠ to_lower_copy (trim_copy tag)) →
      (s.remove_tag tag).ret = false ∧
        (s.remove_tag tag).song.tags_.length = s.tags_.length) := by
  rcases first_match_split (to_lower_copy (trim_copy tag)) s.tags_ with
    h | ⟨pre, x, post, h1, h2, h3⟩
  · rw [remove_tag_none s tag h]
    refine ⟨?_, ?_, ?_⟩
    · simp only [Bool.false_eq_true, false_iff]
      rintro ⟨e, he, hk⟩
      exact h e he hk
    · intro hc; simp at hc
    · intro _; simp
  · rw [remove_tag_some s tag pre x post h1 h2 h3]
    refine ⟨?_, ?_, ?_⟩
    · simp only [true_iff]
      exact ⟨x, by rw [h1]; simp, h3⟩
    · intro _
      exact ⟨pre, x, post, h1, h2, h3, rfl, by rw [h1]; simp; omega⟩
    · intro hall
      exact absurd h3 (hall x (by rw [h1]; simp))

/-- C6: for every song and every keyword whose trimmed, lowercased form `k` is non-empty,
`matches_keyword` is `true` if and only if `k` is a contiguous part of the lowercased
title, or of the lowercased artist, or of the lowercased form of some stored tag; and the
result is the same for every keyword that differs from it only in letter case or in
leading / trailing whitespace. -/
theorem matches_keyword_substring (s : Song) (kw : CppString)
    (hk : to_lower_copy (trim_copy kw) ≠ []) :
    (s.matches_keyword kw = true ↔
      (to_lower_copy (trim_copy kw) <:+: to_lower_copy s.title_ ∨
        to_lower_copy (trim_copy kw) <:+: to_lower_copy s.artist_ ∨
        ∃ t ∈ s.tags_, to_lower_copy (trim_copy kw) <:+: to_lower_copy t)) ∧
    (∀ kw' : CppString, case_space_variant kw kw' →
      s.matches_keyword kw' = s.matches_keyword kw) :=
  ⟨matches_keyword_eq s kw hk, fun kw' h => matches_keyword_variant s kw kw' h⟩

/-- Witness of C6: on the example song the keyword `" LENN "` matches (it is part of the
artist), and so does its variant `"lenn"`. -/
theorem matches_keyword_substring_witness :
    to_lower_copy (trim_copy (lit " LENN ")) ≠ [] ∧
      song_imagine.matches_keyword (lit " LENN ") = true ∧
      song_imagine.matches_keyword (lit "lenn") = song_imagine.matches_keyword (lit " LENN ") :=
  ⟨by decide,
    (matches_keyword_substring song_imagine (lit " LENN ") (by decide)).1.mpr
      (Or.inr (Or.inl ⟨lit "john ", lit "on", by decide⟩)),
    (matches_keyword_substring song_imagine (lit " LENN ") (by decide)).2 (lit "lenn")
      ⟨lit " ", lit " ", [], [], lit "LENN", lit "lenn", all_space_of_all _ (by decide),
        all_space_of_all _ (by decide), all_space_of_all _ (by decide), all_space_of_all _ (by decide),
        by decide, by decide, by decide⟩⟩

/-- C7: for every song, whatever its title, artist and tags, and every keyword that is
empty or consists of whitespace bytes only, `matches_keyword` returns `false`. -/
theorem matches_keyword_blank_false (s : Song) (kw : CppString)
    (h : kw = [] ∨ all_space kw) : s.matches_keyword kw = false := by
  apply matches_keyword_blank
  rcases h with rfl | h
  · intro c hc; cases hc
  · exact h

/-- Witness of C7: the keyword `" \t "` does not match the example song. -/
theorem matches_keyword_blank_false_witness :
    (lit " \t " = [] ∨ all_space (lit " \t ")) ∧
      song_imagine.matches_keyword (lit " \t ") = false :=
  ⟨Or.inr (all_space_of_all _ (by decide)),
    matches_keyword_blank_false song_imagine (lit " \t ")
      (Or.inr (all_space_of_all _ (by decide)))⟩

/-- C8: for every valid song the stream operator writes exactly `"[#"`, the decimal id,
`"] "`, the artist, `" - "`, the title, `" ("`, the decimal duration, `"s) "` and `rating`
asterisks, followed, if and only if the tag list is non-empty, by two spaces, `"[tags: "`,
the stored tags in stored order joined by `", "`, and `"]"`. -/
theorem operator_lshift_format (s : Song) (h : s.Valid) :
    s.operator_lshift = some
      (lit "[#" ++ decimal s.id_ ++ lit "] " ++ s.artist_ ++ lit " - " ++ s.title_ ++ lit " ("
        ++ decimal s.duration_sec_ ++ lit "s) " ++ List.replicate s.rating_.toNat 42
        ++ (if s.tags_ = [] then []
            else lit "  [tags: " ++ (lit ", ").intercalate s.tags_ ++ lit "]")) := by
  obtain ⟨_, _, _, _, hr, _, _, _⟩ := h
  unfold Song.operator_lshift string_fill
  rw [if_neg (by omega)]
  simp only []
  by_cases ht : s.tags_ = []
  · simp [ht]
  · simp [ht, join_tags_eq]

/-- Witness of C8: the example of the spec, title "Imagine", artist "John Lennon", duration
183, rating 4, tags "classic" and "piano", with id 1. -/
theorem operator_lshift_format_witness :
    song_imagine.Valid ∧
      song_imagine.operator_lshift
        = some (lit "[#1] John Lennon - Imagine (183s) ****  [tags: classic, piano]") :=
  ⟨song_imagine_valid,
    (operator_lshift_format song_imagine song_imagine_valid).trans
      (by rw [song_imagine_eval]; decide)⟩

/-- C9: for all songs `a` and `b`, `a < b` holds if and only if `a.rating > b.rating`, or the
ratings are equal and `a.title` is lexicographically (byte-wise) smaller than `b.title`, or
ratings and titles are equal and `a.id < b.id`; in particular a strictly higher rating
puts `a` before `b` whatever the titles and ids. -/
theorem operator_lt_rule (a b : Song) :
    (a.operator_lt b = true ↔
      (a.rating_ > b.rating_ ∨
        (a.rating_ = b.rating_ ∧ List.Lex (· < ·) a.title_ b.title_) ∨
        (a.rating_ = b.rating_ ∧ a.title_ = b.title_ ∧ a.id_ < b.id_))) ∧
    (a.rating_ > b.rating_ → a.operator_lt b = true) :=
  ⟨operator_lt_iff a b, fun h => (operator_lt_iff a b).mpr (Or.inl h)⟩

/-- C10: the comparison `operator<` is a strict weak ordering on all songs: it is
irreflexive, transitive, and incomparability (neither `a < b` nor `b < a`) is
transitive. -/
theorem operator_lt_strict_weak_ordering (a b c : Song) :
    a.operator_lt a = false ∧
    (a.operator_lt b = true → b.operator_lt c = true → a.operator_lt c = true) ∧
    (a.operator_lt b = false ∧ b.operator_lt a = false →
      b.operator_lt c = false ∧ c.operator_lt b = false →
      a.operator_lt c = false ∧ c.operator_lt a = false) := by
  refine ⟨?_, ?_, ?_⟩
  · exact ((operator_lt_incomparable_iff a a).mpr ⟨rfl, rfl, rfl⟩).1
  · intro h1 h2
    rw [operator_lt_iff] at h1 h2 ⊢
    rcases h1 with h1 | ⟨r1, t1⟩ | ⟨r1, t1, i1⟩ <;>
      rcases h2 with h2 | ⟨r2, t2⟩ | ⟨r2, t2, i2⟩
    · left; omega
    · left; omega
    · left; omega
    · left; omega
    · right; left; exact ⟨r1.trans r2, lex_trans t1 t2⟩
    · right; left; exact ⟨r1.trans r2, t2 ▸ t1⟩
    · left; omega
    · right; left; exact ⟨r1.trans r2, t1 ▸ t2⟩
    · right; right; exact ⟨r1.trans r2, t1.trans t2, by omega⟩
  · intro h1 h2
    rw [operator_lt_incomparable_iff] at h1 h2 ⊢
    exact ⟨h1.1.trans h2.1, h1.2.1.trans h2.2.1, h1.2.2.trans h2.2.2⟩

/-! ## Part 4: lemmas about sequences of calls -/

/-- A failed construction leaves the counter alone, a successful one takes its value as
id and advances it by one in 32 bits. -/
theorem ctor_counter (n : Int) (title artist : CppString) (d r : Int) :
    ((Song.ctor n title artist d r).song.valid_ = false ∧
        (Song.ctor n title artist d r).next_id_ = n) ∨
    ((Song.ctor n title artist d r).song.valid_ = true ∧
        (Song.ctor n title artist d r).song.id_ = n ∧
        (Song.ctor n title artist d r).next_id_ = wrap_int (n + 1)) := by
  unfold Song.ctor
  simp only []
  split
  · left; exact ⟨rfl, rfl⟩
  split
  · left; exact ⟨rfl, rfl⟩
  split
  · left; exact ⟨rfl, rfl⟩
  split
  · left; exact ⟨rfl, rfl⟩
  · right; exact ⟨rfl, rfl, rfl⟩

/-- Storing in 32 bits gives a value of the `int` range. -/
theorem wrap_int_range (i : Int) : -2147483648 ≤ wrap_int i ∧ wrap_int i ≤ 2147483647 := by
  unfold wrap_int
  omega

/-- A value of the `int` range is stored as it is. -/
theorem wrap_int_of_range (i : Int) (h1 : -2147483648 ≤ i) (h2 : i ≤ 2147483647) :
    wrap_int i = i := by
  unfold wrap_int
  omega

/-- Incrementing a stored value is incrementing before storing. -/
theorem wrap_int_succ (i : Int) : wrap_int (wrap_int i + 1) = wrap_int (i + 1) := by
  unfold wrap_int
  omega

/-- The ids of the valid objects of a run that starts at counter `n` are `n`, `n + 1`, ...
in construction order, as long as these values stay in the `int` range. -/
theorem construct_all_ids (l : List CtorArgs) : ∀ n : Int, -2147483648 ≤ n →
    n + (((construct_all n l).filter (fun s => s.valid_)).length : Int) ≤ 2147483648 →
    ((construct_all n l).filter (fun s => s.valid_)).map (fun s => s.id_)
      = (List.range ((construct_all n l).filter (fun s => s.valid_)).length).map
          (fun (i : Nat) => n + (i : Int)) := by
  induction l with
  | nil => intro n _ _; rfl
  | cons a rest ih =>
    intro n hlow hup
    unfold construct_all at hup ⊢
    rcases ctor_counter n a.title a.artist a.duration_sec a.rating with ⟨hv, hn⟩ | ⟨hv, hid, hn⟩
    · rw [hn, List.filter_cons_of_neg (by rw [hv]; exact Bool.false_ne_true)] at hup ⊢
      exact ih n hlow hup
    · rw [hn, List.filter_cons_of_pos hv] at hup ⊢
      rw [List.length_cons] at hup ⊢
      have hih := ih (wrap_int (n + 1)) (wrap_int_range _).1
      generalize hL : ((construct_all (wrap_int (n + 1)) rest).filter
        (fun s => s.valid_)).length = L at hup hih ⊢
      have hrest : ((construct_all (wrap_int (n + 1)) rest).filter
          (fun s => s.valid_)).map (fun s => s.id_)
          = (List.range L).map (fun (i : Nat) => n + 1 + (i : Int)) := by
        cases L with
        | zero =>
          have h0 := List.length_eq_zero.mp hL
          rw [h0]
          rfl
        | succ L' =>
          have hw : wrap_int (n + 1) = n + 1 :=
            wrap_int_of_range _ (by omega) (by push_cast at hup; omega)
          rw [hw] at hih ⊢
          exact hih (by push_cast at hup ⊢; omega)
      simp only [List.map_cons, List.length_cons, List.range_succ_eq_map, hid, hrest]
      simp only [Nat.cast_zero, add_zero, List.map_map, List.cons.injEq, true_and]
      apply List.map_congr_left
      intro i _
      show n + 1 + (i : Int) = n + ((i + 1 : Nat) : Int)
      omega

/-! ### Trimming -/

/-- What is left after dropping the leading bytes that satisfy `p` does not start with
such a byte. -/
theorem head_dropWhile_false (p : Byte → Bool) (l : CppString) :
    ∀ c, (l.dropWhile p).head? = some c → p c = false := by
  induction l with
  | nil => intro c hc; simp at hc
  | cons a l ih =>
    intro c hc
    by_cases h : p a = true
    · rw [List.dropWhile_cons_of_pos h] at hc
      exact ih c hc
    · rw [List.dropWhile_cons_of_neg h] at hc
      simp only [List.head?_cons, Option.some.injEq] at hc
      subst hc
      simpa using h

/-- A string splits into the trailing run of bytes satisfying `p` and what is before. -/
theorem rdropWhile_append_rtake (p : Byte → Bool) (y : CppString) :
    y = y.rdropWhile p ++ (y.reverse.takeWhile p).reverse := by
  unfold List.rdropWhile
  rw [← List.reverse_append, List.takeWhile_append_dropWhile, List.reverse_reverse]

/-- The string is its trimmed form with whitespace before and after. -/
theorem trim_copy_split (s : CppString) :
    ∃ w1 w2, all_space w1 ∧ all_space w2 ∧ s = w1 ++ trim_copy s ++ w2 := by
  refine ⟨s.takeWhile isspace, ((s.dropWhile isspace).reverse.takeWhile isspace).reverse,
    ?_, ?_, ?_⟩
  · intro c hc
    exact List.mem_takeWhile_imp hc
  · intro c hc
    exact List.mem_takeWhile_imp (List.mem_reverse.mp hc)
  · rw [trim_copy_eq, List.append_assoc, ← rdropWhile_append_rtake,
      List.takeWhile_append_dropWhile]

/-- The trimmed form has no leading and no trailing whitespace. -/
theorem trim_copy_no_outer_space (s : CppString) : no_outer_space (trim_copy s) := by
  rw [trim_copy_eq]
  constructor
  · intro c hc
    obtain ⟨t, ht⟩ := List.rdropWhile_prefix isspace (s.dropWhile isspace)
    apply head_dropWhile_false isspace s c
    rw [← ht]
    cases hr : List.rdropWhile isspace (List.dropWhile isspace s) with
    | nil => rw [hr] at hc; simp at hc
    | cons a r =>
      rw [hr] at hc
      simpa using hc
  · intro c hc
    unfold List.rdropWhile at hc
    rw [List.getLast?_reverse] at hc
    exact head_dropWhile_false isspace _ c hc

/-- A string without leading and trailing whitespace is its own trimmed form. -/
theorem trim_copy_of_no_outer_space (z : CppString) (h : no_outer_space z) :
    trim_copy z = z := by
  have h1 : z.dropWhile isspace = z := by
    cases z with
    | nil => rfl
    | cons a z =>
      have := h.1 a rfl
      exact List.dropWhile_cons_of_neg (by simp [this])
  rw [trim_copy_eq, h1, List.rdropWhile_eq_self_iff]
  intro hl
  have := h.2 _ (List.getLast?_eq_getLast z hl)
  simp [this]

/-- Trimming twice is trimming once. -/
theorem trim_copy_idem (s : CppString) : trim_copy (trim_copy s) = trim_copy s :=
  trim_copy_of_no_outer_space _ (trim_copy_no_outer_space s)

/-- The empty string is its own trimmed form. -/
theorem trim_copy_nil : trim_copy [] = [] := rfl

/-! ### The invariant of reachable songs -/

/-- Every constructor call leaves an object that satisfies the invariant. -/
theorem ctor_inv (n : Int) (title artist : CppString) (d r : Int) :
    (Song.ctor n title artist d r).song.Inv := by
  unfold Song.ctor Song.Inv
  simp only []
  split
  · simp [Song.unset, trim_copy_nil]
  split
  · simp [Song.unset, trim_copy_nil]
  split
  · simp [Song.unset, trim_copy_nil]
  split
  · simp [Song.unset, trim_copy_nil]
  · rename_i h1 h2 h3 h4
    simp only [List.isEmpty_iff] at h1 h2
    refine ⟨trim_copy_idem _, trim_copy_idem _, ?_, ?_, ?_⟩
    · simp [Song.unset]
    · simp [Song.unset]
    · intro _
      refine ⟨h1, h2, ?_, ?_, ?_⟩ <;> dsimp only <;> omega

/-- Every call of a `bool` member function keeps the invariant and the valid flag. -/
theorem call_inv (s : Song) (c : Call) (h : s.Inv) :
    (s.call c).song.Inv ∧ (s.call c).song.valid_ = s.valid_ := by
  obtain ⟨ht, ha, htags, hnd, hv⟩ := h
  cases c with
  | set_title t =>
    simp only [Song.call, Song.set_title]
    by_cases h : trim_copy t = []
    · simp only [h, List.isEmpty_nil, if_true]
      exact ⟨⟨ht, ha, htags, hnd, hv⟩, by first | rfl | trivial⟩
    · simp only [List.isEmpty_iff, h, if_false]
      exact ⟨⟨trim_copy_idem _, ha, htags, hnd,
        fun hval => ⟨h, (hv hval).2⟩⟩, by first | rfl | trivial⟩
  | set_artist a =>
    simp only [Song.call, Song.set_artist]
    by_cases h : trim_copy a = []
    · simp only [h, List.isEmpty_nil, if_true]
      exact ⟨⟨ht, ha, htags, hnd, hv⟩, by first | rfl | trivial⟩
    · simp only [List.isEmpty_iff, h, if_false]
      exact ⟨⟨ht, trim_copy_idem _, htags, hnd,
        fun hval => ⟨(hv hval).1, h, (hv hval).2.2⟩⟩, by first | rfl | trivial⟩
  | set_duration sec =>
    simp only [Song.call, Song.set_duration]
    by_cases h : sec ≤ 0
    · simp only [h, if_true]
      exact ⟨⟨ht, ha, htags, hnd, hv⟩, by first | rfl | trivial⟩
    · simp only [h, if_false]
      exact ⟨⟨ht, ha, htags, hnd,
        fun hval => ⟨(hv hval).1, (hv hval).2.1, by dsimp only; omega, (hv hval).2.2.2⟩⟩, by first | rfl | trivial⟩
  | set_rating r =>
    simp only [Song.call, Song.set_rating]
    by_cases h : r < 1 ∨ r > 5
    · simp only [h, if_true]
      exact ⟨⟨ht, ha, htags, hnd, hv⟩, by first | rfl | trivial⟩
    · simp only [h, if_false]
      exact ⟨⟨ht, ha, htags, hnd,
        fun hval => ⟨(hv hval).1, (hv hval).2.1, (hv hval).2.2.1, by dsimp only; omega,
          by dsimp only; omega⟩⟩, by first | rfl | trivial⟩
  | add_tag tag =>
    simp only [Song.call, Song.add_tag]
    by_cases h : trim_copy tag = []
    · simp only [h, List.isEmpty_nil, if_true]
      exact ⟨⟨ht, ha, htags, hnd, hv⟩, by first | rfl | trivial⟩
    · simp only [List.isEmpty_iff, h, if_false]
      by_cases hex : Song.add_tag.exists_lower (to_lower_copy (trim_copy tag)) s.tags_ = true
      · simp only [hex, if_true]
        exact ⟨⟨ht, ha, htags, hnd, hv⟩, by first | rfl | trivial⟩
      · simp only [hex, Bool.false_eq_true, if_false]
        refine ⟨⟨ht, ha, ?_, ?_, hv⟩, by first | rfl | trivial⟩
        · intro t hmem
          rcases List.mem_append.mp hmem with hmem | hmem
          · exact htags t hmem
          · rw [List.mem_singleton.mp hmem]
            exact ⟨h, trim_copy_idem _⟩
        · rw [List.map_append, List.nodup_append]
          refine ⟨hnd, List.nodup_singleton _, ?_⟩
          intro k hk1 hk2
          rw [List.map_singleton, List.mem_singleton] at hk2
          obtain ⟨e, he, hek⟩ := List.mem_map.mp hk1
          exact hex ((add_tag_exists_lower_iff _ _).mpr ⟨e, he, hek.trans hk2⟩)
  | remove_tag tag =>
    simp only [Song.call]
    rcases first_match_split (to_lower_copy (trim_copy tag)) s.tags_ with
      hno | ⟨pre, x, post, h1, h2, h3⟩
    · rw [remove_tag_none s tag hno]
      exact ⟨⟨ht, ha, htags, hnd, hv⟩, rfl⟩
    · rw [remove_tag_some s tag pre x post h1 h2 h3]
      have hsub : (pre ++ post).Sublist s.tags_ := by
        rw [h1]
        exact List.Sublist.append (List.Sublist.refl pre) (List.sublist_cons_self x post)
      exact ⟨⟨ht, ha, fun t hmem => htags t (hsub.subset hmem),
        hnd.sublist (hsub.map _), hv⟩, rfl⟩

/-- A sequence of calls keeps the invariant and the valid flag. -/
theorem calls_inv (cs : List Call) : ∀ s : Song, s.Inv →
    (s.calls cs).Inv ∧ (s.calls cs).valid_ = s.valid_ := by
  induction cs with
  | nil => intro s h; exact ⟨h, rfl⟩
  | cons c cs ih =>
    intro s h
    unfold Song.calls
    have h1 := call_inv s c h
    have h2 := ih _ h1.1
    exact ⟨h2.1, h2.2.trans h1.2⟩

/-- Every reachable song satisfies the invariant. -/
theorem reachable_inv (s : Song) (h : s.Reachable) : s.Inv := by
  obtain ⟨n, t, a, d, r, cs, rfl⟩ := h
  exact (calls_inv cs _ (ctor_inv n t a d r)).1

/-- A song reached by one more call is reachable. -/
theorem reachable_call (s : Song) (c : Call) (h : s.Reachable) : (s.call c).song.Reachable := by
  obtain ⟨n, t, a, d, r, cs, rfl⟩ := h
  refine ⟨n, t, a, d, r, cs ++ [c], ?_⟩
  generalize (Song.ctor n t a d r).song = s0
  induction cs generalizing s0 with
  | nil => rfl
  | cons c' cs ih => exact ih _

/-! ### Tags -/

/-- A successful `add_tag` in full: the tag is new and the trimmed tag is appended. -/
theorem add_tag_new (s : Song) (tag : CppString) (h1 : trim_copy tag ≠ [])
    (h2 : ∀ e ∈ s.tags_, to_lower_copy e ≠ to_lower_copy (trim_copy tag)) :
    s.add_tag tag = ⟨true, { s with tags_ := s.tags_ ++ [trim_copy tag] }, []⟩ := by
  have hex : ¬ Song.add_tag.exists_lower (to_lower_copy (trim_copy tag)) s.tags_ = true := by
    rw [add_tag_exists_lower_iff]
    rintro ⟨e, he, hk⟩
    exact h2 e he hk
  unfold Song.add_tag
  simp only [List.isEmpty_iff, h1, hex, if_false, Bool.false_eq_true]

/-- An `add_tag` that returns `true` was one of a new tag. -/
theorem add_tag_true (s : Song) (tag : CppString) (h : (s.add_tag tag).ret = true) :
    trim_copy tag ≠ [] ∧
      ∀ e ∈ s.tags_, to_lower_copy e ≠ to_lower_copy (trim_copy tag) := by
  unfold Song.add_tag at h
  by_cases h1 : trim_copy tag = []
  · simp [h1] at h
  by_cases hex : Song.add_tag.exists_lower (to_lower_copy (trim_copy tag)) s.tags_ = true
  · simp [h1, hex] at h
  · refine ⟨h1, fun e he hk => hex ?_⟩
    exact (add_tag_exists_lower_iff _ _).mpr ⟨e, he, hk⟩

/-- An `add_tag` of a tag that is stored already, up to case, fails and changes nothing. -/
theorem add_tag_dup (s : Song) (tag : CppString) (h1 : trim_copy tag ≠ [])
    (h2 : ∃ e ∈ s.tags_, to_lower_copy e = to_lower_copy (trim_copy tag)) :
    (s.add_tag tag).ret = false ∧ (s.add_tag tag).song = s := by
  have hex := (add_tag_exists_lower_iff _ _).mpr h2
  unfold Song.add_tag
  simp only [List.isEmpty_iff, h1, hex, if_false, if_true, and_self]

/-- Lowercasing keeps the empty string apart from the others. -/
theorem to_lower_copy_eq_nil_iff (s : CppString) : to_lower_copy s = [] ↔ s = [] := by
  unfold to_lower_copy
  exact List.map_eq_nil_iff

/-- Every string is a variant of itself. -/
theorem case_space_variant_refl (t : CppString) : case_space_variant t t :=
  ⟨[], [], [], [], t, t, all_space_of_all _ rfl, all_space_of_all _ rfl,
    all_space_of_all _ rfl, all_space_of_all _ rfl, (by simp), (by simp), rfl⟩

/-- The trimmed form of a variant of a string that is not blank is not empty. -/
theorem variant_trim_ne_nil (t t' : CppString) (hv : case_space_variant t t')
    (h : trim_copy t ≠ []) : trim_copy t' ≠ [] := by
  intro hc
  have := case_space_variant_lower_trim t t' hv
  rw [hc] at this
  exact h ((to_lower_copy_eq_nil_iff _).mp this)

/-! ### The ordering -/

/-- The lexicographic order of strings is asymmetric. -/
theorem lex_asymm {a b : CppString} (h1 : List.Lex (· < ·) a b) :
    ¬ List.Lex (· < ·) b a := by
  intro h2
  haveI : IsStrictTotalOrder Byte (· < ·) := inferInstance
  exact irrefl_of (List.Lex (· < ·)) a (lex_trans h1 h2)

/-- The comparison of songs never holds in both directions. -/
theorem operator_lt_asymm (a b : Song) (h : a.operator_lt b = true) :
    b.operator_lt a = false := by
  rw [← Bool.not_eq_true]
  intro h'
  rw [operator_lt_iff] at h h'
  rcases h with h | ⟨r1, t1⟩ | ⟨r1, t1, i1⟩ <;>
    rcases h' with h' | ⟨r2, t2⟩ | ⟨r2, t2, i2⟩
  · omega
  · omega
  · omega
  · omega
  · exact lex_asymm t1 t2
  · rw [t2] at t1
    exact lex_asymm t1 t1
  · omega
  · rw [t1] at t2
    exact lex_asymm t2 t2
  · omega

/-- Two arranged lists of the same songs are equal, when songs of the list that are
incomparable are equal. -/
theorem arranged_perm_unique : ∀ (l₁ l₂ : List Song), l₁.Perm l₂ → arranged l₁ → arranged l₂ →
    (∀ a ∈ l₁, ∀ b ∈ l₁, a.operator_lt b = false → b.operator_lt a = false → a = b) →
    l₁ = l₂ := by
  intro l₁
  induction l₁ with
  | nil =>
    intro l₂ hp _ _ _
    exact hp.nil_eq
  | cons a l₁ ih =>
    intro l₂ hp h1 h2 hanti
    cases l₂ with
    | nil => exact absurd hp.length_eq (by simp)
    | cons b l₂ =>
      have hab : a = b := by
        have hb : b ∈ a :: l₁ := hp.symm.subset (List.mem_cons_self _ _)
        have ha : a ∈ b :: l₂ := hp.subset (List.mem_cons_self _ _)
        rcases List.mem_cons.mp hb with hb' | hb'
        · exact hb'.symm
        rcases List.mem_cons.mp ha with ha' | ha'
        · exact ha'
        have r1 : b.operator_lt a = false := (List.pairwise_cons.mp h1).1 b hb'
        have r2 : a.operator_lt b = false := (List.pairwise_cons.mp h2).1 a ha'
        exact hanti a (List.mem_cons_self _ _) b hb r2 r1
      subst hab
      rw [ih l₂ (List.Perm.cons_inv hp) (List.pairwise_cons.mp h1).2
        (List.pairwise_cons.mp h2).2
        (fun x hx y hy => hanti x (List.mem_cons_of_mem _ hx) y (List.mem_cons_of_mem _ hy))]

/-! ### Evaluations on concrete inputs -/

/-- The three songs of the ordering example: ids 1, 2, 3 in construction order. -/
theorem songs_bxa_eval :
    songs_bxa =
      [⟨1, lit "B", lit "artist", 200, 5, [], true⟩, ⟨2, lit "X", lit "artist", 200, 3, [], true⟩,
        ⟨3, lit "A", lit "artist", 200, 5, [], true⟩] := by
  decide

/-- The fields of the song without tags. -/
theorem song_plain_eval :
    song_plain = ⟨1, lit "Imagine", lit "John Lennon", 183, 4, [], true⟩ := by
  decide

/-! ## Part 5: further properties of the specification -/

/-- C12: for every song produced by a successful construction followed by any finite
sequence of `set_title`, `set_artist`, `set_duration`, `set_rating`, `add_tag` and
`remove_tag` calls with arbitrary arguments, the valid flag is still set, title and artist
are non-empty, the duration is positive, the rating is in `[1, 5]`, every stored tag is
non-empty, and no two stored tags at different positions are equal once lowercased. -/
theorem reachable_valid_invariant (next_id_ : Int) (title artist : CppString)
    (duration_sec rating : Int) (cs : List Call)
    (h : (Song.ctor next_id_ title artist duration_sec rating).song.valid_ = true) :
    ((Song.ctor next_id_ title artist duration_sec rating).song.calls cs).Valid := by
  have hinv := calls_inv cs _ (ctor_inv next_id_ title artist duration_sec rating)
  obtain ⟨⟨_, _, htags, hnd, hv⟩, hvalid⟩ := hinv
  have hval := hvalid.trans h
  obtain ⟨h1, h2, h3, h4, h5⟩ := hv hval
  exact ⟨hval, h1, h2, h3, h4, h5, fun t ht => (htags t ht).1, hnd⟩

/-- Witness of C12: the example song after a failed `set_rating`, a successful `add_tag`,
a successful `remove_tag` and a successful `set_title`. -/
theorem reachable_valid_invariant_witness :
    (Song.ctor 1 (lit "Imagine") (lit "John Lennon") 183 4).song.valid_ = true ∧
      ((Song.ctor 1 (lit "Imagine") (lit "John Lennon") 183 4).song.calls
        [.set_rating 9, .add_tag (lit " Rock "), .remove_tag (lit "ROCK"),
          .set_title (lit "Jealous Guy")]).Valid :=
  ⟨by decide,
    reachable_valid_invariant 1 (lit "Imagine") (lit "John Lennon") 183 4
      [.set_rating 9, .add_tag (lit " Rock "), .remove_tag (lit "ROCK"),
        .set_title (lit "Jealous Guy")] (by decide)⟩

/-- C13: for every song and every tag `t` for which `add_tag` returns `true`, an
immediately following `add_tag` of any `t'` that equals `t` up to letter case and leading /
trailing whitespace returns `false` and leaves the tag list unchanged: the list is the old
one followed by the trimmed `t` in the spelling of the first call, and exactly one of its
entries matches `t` up to case. -/
theorem add_tag_idempotent_up_to_case (s : Song) (t t' : CppString)
    (h : (s.add_tag t).ret = true) (hv : case_space_variant t t') :
    ((s.add_tag t).song.add_tag t').ret = false ∧
    ((s.add_tag t).song.add_tag t').song.tags_ = (s.add_tag t).song.tags_ ∧
    ((s.add_tag t).song.add_tag t').song.tags_ = s.tags_ ++ [trim_copy t] ∧
    (((s.add_tag t).song.add_tag t').song.tags_.countP
      (fun e => decide (to_lower_copy e = to_lower_copy (trim_copy t)))) = 1 := by
  obtain ⟨h1, h2⟩ := add_tag_true s t h
  have hadd := add_tag_new s t h1 h2
  have hdup := add_tag_dup (s.add_tag t).song t' (variant_trim_ne_nil t t' hv h1)
    ⟨trim_copy t, by rw [hadd]; simp, case_space_variant_lower_trim t t' hv⟩
  refine ⟨hdup.1, by rw [hdup.2], by rw [hdup.2, hadd], ?_⟩
  rw [hdup.2, hadd]
  simp only [List.countP_append, List.countP_singleton, decide_True, if_true]
  rw [List.countP_eq_zero.mpr]
  intro e he
  simpa using h2 e he

/-- Witness of C13: on a song with no tags, adding "Rock" and then "rock" leaves the tag
list equal to ["Rock"]. -/
theorem add_tag_idempotent_up_to_case_witness :
    (song_plain.add_tag (lit "Rock")).ret = true ∧ case_space_variant (lit "Rock") (lit "rock") ∧
      ((song_plain.add_tag (lit "Rock")).song.add_tag (lit "rock")).ret = false ∧
      ((song_plain.add_tag (lit "Rock")).song.add_tag (lit "rock")).song.tags_ = [lit "Rock"] :=
  have hv : case_space_variant (lit "Rock") (lit "rock") :=
    ⟨[], [], [], [], lit "Rock", lit "rock", all_space_of_all _ rfl, all_space_of_all _ rfl,
      all_space_of_all _ rfl, all_space_of_all _ rfl, by decide, by decide, by decide⟩
  ⟨by decide, hv,
    (add_tag_idempotent_up_to_case song_plain (lit "Rock") (lit "rock") (by decide) hv).1,
    (add_tag_idempotent_up_to_case song_plain (lit "Rock") (lit "rock") (by decide) hv).2.2.1.trans
      (by decide)⟩

/-! ### The five ways through the constructor -/

/-- The constructor with a blank title. -/
theorem ctor_fail_title (n : Int) (title artist : CppString) (d r : Int)
    (h1 : trim_copy title = []) :
    Song.ctor n title artist d r = ⟨Song.unset, n, [lit "[错误] 标题不能为空\n"]⟩ := by
  unfold Song.ctor
  simp only [h1, List.isEmpty_nil, if_true]

/-- The constructor with a title and a blank artist. -/
theorem ctor_fail_artist (n : Int) (title artist : CppString) (d r : Int)
    (h1 : trim_copy title ≠ []) (h2 : trim_copy artist = []) :
    Song.ctor n title artist d r = ⟨Song.unset, n, [lit "[错误] 艺人不能为空\n"]⟩ := by
  unfold Song.ctor
  simp only [List.isEmpty_iff, h1, h2, if_true, if_false]

/-- The constructor with title and artist and a duration that is not positive. -/
theorem ctor_fail_duration (n : Int) (title artist : CppString) (d r : Int)
    (h1 : trim_copy title ≠ []) (h2 : trim_copy artist ≠ []) (h3 : d ≤ 0) :
    Song.ctor n title artist d r
      = ⟨Song.unset, n, [lit "[错误] 时长必须为正整数（秒）\n"]⟩ := by
  unfold Song.ctor
  simp only [List.isEmpty_iff, h1, h2, h3, if_true, if_false]

/-- The constructor with title, artist and duration and a rating out of range. -/
theorem ctor_fail_rating (n : Int) (title artist : CppString) (d r : Int)
    (h1 : trim_copy title ≠ []) (h2 : trim_copy artist ≠ []) (h3 : ¬ d ≤ 0)
    (h4 : r < 1 ∨ r > 5) :
    Song.ctor n title artist d r
      = ⟨Song.unset, n, [lit "[错误] 评分必须在 1...5 之间\n"]⟩ := by
  unfold Song.ctor
  simp only [List.isEmpty_iff, h1, h2, h3, h4, if_true, if_false]

/-- The constructor when every check passes. -/
theorem ctor_ok (n : Int) (title artist : CppString) (d r : Int)
    (h1 : trim_copy title ≠ []) (h2 : trim_copy artist ≠ []) (h3 : ¬ d ≤ 0)
    (h4 : ¬ (r < 1 ∨ r > 5)) :
    Song.ctor n title artist d r
      = ⟨⟨n, trim_copy title, trim_copy artist, d, r, [], true⟩, wrap_int (n + 1), []⟩ := by
  unfold Song.ctor
  simp only [List.isEmpty_iff, h1, h2, h3, h4, if_false, Song.unset]

/-- C14: with the diagnostics taken as the list of chunks written to `std::cout`, a
successful construction writes nothing, and a failed construction writes exactly one
line, which starts with "[错误]" and is the message of the first failing check in the
order title non-empty, artist non-empty, duration positive, rating in `[1, 5]`, whether or
not later checks would fail as well. -/
theorem ctor_diagnostics (next_id_ : Int) (title artist : CppString)
    (duration_sec rating : Int) :
    ((Song.ctor next_id_ title artist duration_sec rating).song.valid_ = true →
      (Song.ctor next_id_ title artist duration_sec rating).out = []) ∧
    (trim_copy title = [] →
      (Song.ctor next_id_ title artist duration_sec rating).out
        = [lit "[错误] 标题不能为空\n"]) ∧
    (trim_copy title ≠ [] → trim_copy artist = [] →
      (Song.ctor next_id_ title artist duration_sec rating).out
        = [lit "[错误] 艺人不能为空\n"]) ∧
    (trim_copy title ≠ [] → trim_copy artist ≠ [] → duration_sec ≤ 0 →
      (Song.ctor next_id_ title artist duration_sec rating).out
        = [lit "[错误] 时长必须为正整数（秒）\n"]) ∧
    (trim_copy title ≠ [] → trim_copy artist ≠ [] → 0 < duration_sec →
      (rating < 1 ∨ 5 < rating) →
      (Song.ctor next_id_ title artist duration_sec rating).out
        = [lit "[错误] 评分必须在 1...5 之间\n"]) ∧
    ((Song.ctor next_id_ title artist duration_sec rating).song.valid_ = false →
      ∃ m, (Song.ctor next_id_ title artist duration_sec rating).out = [m] ∧
        lit "[错误]" <+: m ∧ is_line m) := by
  have hpre : ∀ m : CppString, (lit "[错误]").isPrefixOf m = true → lit "[错误]" <+: m :=
    fun m hm => List.isPrefixOf_iff_prefix.mp hm
  by_cases h1 : trim_copy title = []
  · rw [ctor_fail_title _ _ _ _ _ h1]
    refine ⟨fun h => Bool.noConfusion h, fun _ => rfl, fun h => absurd h1 h,
      fun h => absurd h1 h, fun h => absurd h1 h, fun _ => ⟨_, rfl, hpre _ (by decide), ?_⟩⟩
    unfold is_line; decide
  by_cases h2 : trim_copy artist = []
  · rw [ctor_fail_artist _ _ _ _ _ h1 h2]
    refine ⟨fun h => Bool.noConfusion h, fun h => absurd h h1, fun _ _ => rfl,
      fun _ h => absurd h2 h, fun _ h => absurd h2 h, fun _ => ⟨_, rfl, hpre _ (by decide), ?_⟩⟩
    unfold is_line; decide
  by_cases h3 : duration_sec ≤ 0
  · rw [ctor_fail_duration _ _ _ _ _ h1 h2 h3]
    refine ⟨fun h => Bool.noConfusion h, fun h => absurd h h1, fun _ h => absurd h h2,
      fun _ _ _ => rfl, fun _ _ h => absurd h (by omega),
      fun _ => ⟨_, rfl, hpre _ (by decide), ?_⟩⟩
    unfold is_line; decide
  by_cases h4 : rating < 1 ∨ rating > 5
  · rw [ctor_fail_rating _ _ _ _ _ h1 h2 h3 h4]
    refine ⟨fun h => Bool.noConfusion h, fun h => absurd h h1, fun _ h => absurd h h2,
      fun _ _ h => absurd h h3, fun _ _ _ _ => rfl,
      fun _ => ⟨_, rfl, hpre _ (by decide), ?_⟩⟩
    unfold is_line; decide
  · rw [ctor_ok _ _ _ _ _ h1 h2 h3 h4]
    exact ⟨fun _ => rfl, fun h => absurd h h1, fun _ h => absurd h h2,
      fun _ _ h => absurd h h3, fun _ _ _ h => absurd h (by omega),
      fun h => Bool.noConfusion h⟩

/-- Witness of C14: an empty title together with a rating of 9 writes the title message
and nothing else. -/
theorem ctor_diagnostics_witness :
    trim_copy (lit "") = [] ∧
      (Song.ctor 1 (lit "") (lit "John Lennon") 183 9).out = [lit "[错误] 标题不能为空\n"] :=
  ⟨by decide, (ctor_diagnostics 1 (lit "") (lit "John Lennon") 183 9).2.1 (by decide)⟩

/-- C15: in every list of songs arranged so that no element is less, by `operator<`, than
an element before it, the ratings are non-increasing along the list, the titles are
non-decreasing among songs of equal rating, and the ids are non-decreasing among songs of
equal rating and equal title. The songs constructed in this order with ratings 5, 3, 5 and
titles "B", "X", "A" have exactly one such arrangement: "A" (rating 5, id 3), "B" (rating
5, id 1), "X" (rating 3, id 2). -/
theorem arranged_by_rating_title_id :
    (∀ l : List Song, arranged l →
      l.Pairwise (fun a b => a.rating_ ≥ b.rating_) ∧
      l.Pairwise (fun a b => a.rating_ = b.rating_ →
        (a.title_ = b.title_ ∨ List.Lex (· < ·) a.title_ b.title_)) ∧
      l.Pairwise (fun a b => a.rating_ = b.rating_ → a.title_ = b.title_ → a.id_ ≤ b.id_)) ∧
    (∀ l : List Song, l.Perm songs_bxa →
      (arranged l ↔
        l = [⟨3, lit "A", lit "artist", 200, 5, [], true⟩,
          ⟨1, lit "B", lit "artist", 200, 5, [], true⟩,
          ⟨2, lit "X", lit "artist", 200, 3, [], true⟩])) := by
  constructor
  · intro l h
    have key : ∀ a b : Song, b.operator_lt a = false →
        a.rating_ ≥ b.rating_ ∧
        (a.rating_ = b.rating_ → (a.title_ = b.title_ ∨ List.Lex (· < ·) a.title_ b.title_)) ∧
        (a.rating_ = b.rating_ → a.title_ = b.title_ → a.id_ ≤ b.id_) := by
      intro a b hba
      have hn : ¬ (b.operator_lt a = true) := by simp [hba]
      rw [operator_lt_iff] at hn
      push_neg at hn
      obtain ⟨n1, n2, n3⟩ := hn
      refine ⟨by omega, ?_, ?_⟩
      · intro hr
        rcases lex_trichotomy a.title_ b.title_ with h | h | h
        · exact Or.inr h
        · exact Or.inl h
        · exact absurd h (n2 hr.symm)
      · intro hr ht
        have := n3 hr.symm ht.symm
        omega
    exact ⟨h.imp (fun hab => (key _ _ hab).1), h.imp (fun hab => (key _ _ hab).2.1),
      h.imp (fun hab => (key _ _ hab).2.2)⟩
  · intro l hp
    rw [songs_bxa_eval] at hp
    have harr : arranged [(⟨3, lit "A", lit "artist", 200, 5, [], true⟩ : Song),
        ⟨1, lit "B", lit "artist", 200, 5, [], true⟩,
        ⟨2, lit "X", lit "artist", 200, 3, [], true⟩] := by
      unfold arranged; decide
    constructor
    · intro hl
      symm
      apply arranged_perm_unique _ l _ harr hl
      · decide
      · exact List.Perm.trans (by decide) hp.symm
    · intro hl
      rw [hl]
      exact harr

/-- Witness of C15: the arrangement "A", "B", "X" of the example songs has non-increasing
ratings 5, 5, 3. -/
theorem arranged_by_rating_title_id_witness :
    arranged [(⟨3, lit "A", lit "artist", 200, 5, [], true⟩ : Song),
        ⟨1, lit "B", lit "artist", 200, 5, [], true⟩,
        ⟨2, lit "X", lit "artist", 200, 3, [], true⟩] ∧
      [(⟨3, lit "A", lit "artist", 200, 5, [], true⟩ : Song),
        ⟨1, lit "B", lit "artist", 200, 5, [], true⟩,
        ⟨2, lit "X", lit "artist", 200, 3, [], true⟩].Pairwise
          (fun a b => a.rating_ ≥ b.rating_) :=
  have harr : arranged [(⟨3, lit "A", lit "artist", 200, 5, [], true⟩ : Song),
      ⟨1, lit "B", lit "artist", 200, 5, [], true⟩,
      ⟨2, lit "X", lit "artist", 200, 3, [], true⟩] :=
    (arranged_by_rating_title_id.2 _ (by rw [songs_bxa_eval]; decide)).mpr rfl
  ⟨harr, (arranged_by_rating_title_id.1 _ harr).1⟩

/-- C16: trimming removes exactly the leading and trailing whitespace: every string `s` is
`w1 ++ trim_copy s ++ w2` with `w1` and `w2` made of whitespace bytes only; `trim_copy s`
is empty exactly when `s` is empty or all whitespace, and otherwise begins and ends with
a byte that is not whitespace; hence trimming twice is trimming once, and every title
and artist stored by the constructor, `set_title` or `set_artist`, and every tag stored by
`add_tag`, has no leading or trailing whitespace. -/
theorem trim_copy_exact (s : CppString) :
    (∃ w1 w2, all_space w1 ∧ all_space w2 ∧ s = w1 ++ trim_copy s ++ w2) ∧
    (trim_copy s = [] ↔ (s = [] ∨ all_space s)) ∧
    no_outer_space (trim_copy s) ∧
    (trim_copy s ≠ [] → ∃ first last, (trim_copy s).head? = some first ∧
      (trim_copy s).getLast? = some last ∧ isspace first = false ∧ isspace last = false) ∧
    trim_copy (trim_copy s) = trim_copy s ∧
    (∀ (n : Int) (artist : CppString) (d r : Int),
      (Song.ctor n s artist d r).song.valid_ = true →
        (Song.ctor n s artist d r).song.title_ = trim_copy s ∧
        no_outer_space (Song.ctor n s artist d r).song.title_) ∧
    (∀ (n : Int) (title : CppString) (d r : Int),
      (Song.ctor n title s d r).song.valid_ = true →
        (Song.ctor n title s d r).song.artist_ = trim_copy s ∧
        no_outer_space (Song.ctor n title s d r).song.artist_) ∧
    (∀ x : Song, (x.set_title s).ret = true →
      (x.set_title s).song.title_ = trim_copy s ∧ no_outer_space (x.set_title s).song.title_) ∧
    (∀ x : Song, (x.set_artist s).ret = true →
      (x.set_artist s).song.artist_ = trim_copy s ∧
        no_outer_space (x.set_artist s).song.artist_) ∧
    (∀ x : Song, (x.add_tag s).ret = true →
      (x.add_tag s).song.tags_ = x.tags_ ++ [trim_copy s] ∧ no_outer_space (trim_copy s)) := by
  have hno := trim_copy_no_outer_space s
  refine ⟨trim_copy_split s, ?_, hno, ?_, trim_copy_idem s, ?_, ?_, ?_, ?_, ?_⟩
  · rw [trim_copy_eq_nil_iff]
    constructor
    · exact Or.inr
    · rintro (rfl | h)
      · exact all_space_of_all _ rfl
      · exact h
  · intro hne
    refine ⟨(trim_copy s).head hne, (trim_copy s).getLast hne, List.head?_eq_head hne,
      List.getLast?_eq_getLast _ hne, hno.1 _ (List.head?_eq_head hne),
      hno.2 _ (List.getLast?_eq_getLast _ hne)⟩
  · intro n artist d r hv
    have ht : (Song.ctor n s artist d r).song.title_ = trim_copy s := by
      by_cases h1 : trim_copy s = []
      · rw [ctor_fail_title _ _ _ _ _ h1] at hv; exact Bool.noConfusion hv
      by_cases h2 : trim_copy artist = []
      · rw [ctor_fail_artist _ _ _ _ _ h1 h2] at hv; exact Bool.noConfusion hv
      by_cases h3 : d ≤ 0
      · rw [ctor_fail_duration _ _ _ _ _ h1 h2 h3] at hv; exact Bool.noConfusion hv
      by_cases h4 : r < 1 ∨ r > 5
      · rw [ctor_fail_rating _ _ _ _ _ h1 h2 h3 h4] at hv; exact Bool.noConfusion hv
      · rw [ctor_ok _ _ _ _ _ h1 h2 h3 h4]
    exact ⟨ht, by rw [ht]; exact hno⟩
  · intro n title d r hv
    have ht : (Song.ctor n title s d r).song.artist_ = trim_copy s := by
      by_cases h1 : trim_copy title = []
      · rw [ctor_fail_title _ _ _ _ _ h1] at hv; exact Bool.noConfusion hv
      by_cases h2 : trim_copy s = []
      · rw [ctor_fail_artist _ _ _ _ _ h1 h2] at hv; exact Bool.noConfusion hv
      by_cases h3 : d ≤ 0
      · rw [ctor_fail_duration _ _ _ _ _ h1 h2 h3] at hv; exact Bool.noConfusion hv
      by_cases h4 : r < 1 ∨ r > 5
      · rw [ctor_fail_rating _ _ _ _ _ h1 h2 h3 h4] at hv; exact Bool.noConfusion hv
      · rw [ctor_ok _ _ _ _ _ h1 h2 h3 h4]
    exact ⟨ht, by rw [ht]; exact hno⟩
  · intro x hr
    have ht : (x.set_title s).song.title_ = trim_copy s := by
      unfold Song.set_title at hr ⊢
      by_cases h : trim_copy s = []
      · simp [h] at hr
      · simp [h]
    exact ⟨ht, by rw [ht]; exact hno⟩
  · intro x hr
    have ht : (x.set_artist s).song.artist_ = trim_copy s := by
      unfold Song.set_artist at hr ⊢
      by_cases h : trim_copy s = []
      · simp [h] at hr
      · simp [h]
    exact ⟨ht, by rw [ht]; exact hno⟩
  · intro x hr
    obtain ⟨h1, h2⟩ := add_tag_true x s hr
    rw [add_tag_new x s h1 h2]
    exact ⟨rfl, hno⟩

/-- C17: for every song and every tag `t`, if `add_tag` of `t` returns `true` then an
immediately following `remove_tag` of `t`, or of any variant of `t` up to letter case and
leading / trailing whitespace, returns `true` and gives back the song as it was before
the `add_tag`, with the tag list in the same order. -/
theorem add_tag_remove_tag_round_trip (s : Song) (t t' : CppString)
    (h : (s.add_tag t).ret = true) (hv : case_space_variant t t') :
    ((s.add_tag t).song.remove_tag t).ret = true ∧
    ((s.add_tag t).song.remove_tag t).song.tags_ = s.tags_ ∧
    ((s.add_tag t).song.remove_tag t').ret = true ∧
    ((s.add_tag t).song.remove_tag t').song.tags_ = s.tags_ ∧
    ((s.add_tag t).song.remove_tag t').song = s := by
  obtain ⟨h1, h2⟩ := add_tag_true s t h
  have hadd := add_tag_new s t h1 h2
  have hk := case_space_variant_lower_trim t t' hv
  have hsome : ∀ u : CppString, to_lower_copy (trim_copy t) = to_lower_copy (trim_copy u) →
      (s.add_tag t).song.remove_tag u = ⟨true, s, []⟩ := by
    intro u hu
    rw [remove_tag_some (s.add_tag t).song u s.tags_ (trim_copy t) []
      (by rw [hadd]) (fun e he => by rw [← hu]; exact h2 e he) hu, hadd]
    simp
  rw [hsome t rfl, hsome t' hk]
  exact ⟨rfl, rfl, rfl, rfl, rfl⟩

/-- Witness of C17: on the song without tags, adding " Rock " and removing "ROCK" gives
back the empty tag list. -/
theorem add_tag_remove_tag_round_trip_witness :
    (song_plain.add_tag (lit " Rock ")).ret = true ∧
      case_space_variant (lit " Rock ") (lit "ROCK") ∧
      ((song_plain.add_tag (lit " Rock ")).song.remove_tag (lit "ROCK")).ret = true ∧
      ((song_plain.add_tag (lit " Rock ")).song.remove_tag (lit "ROCK")).song.tags_ = [] :=
  have hv : case_space_variant (lit " Rock ") (lit "ROCK") :=
    ⟨lit " ", lit " ", [], [], lit "Rock", lit "ROCK", all_space_of_all _ (by decide),
      all_space_of_all _ (by decide), all_space_of_all _ rfl, all_space_of_all _ rfl,
      by decide, by decide, by decide⟩
  ⟨by decide, hv,
    (add_tag_remove_tag_round_trip song_plain (lit " Rock ") (lit "ROCK") (by decide) hv).2.2.1,
    (add_tag_remove_tag_round_trip song_plain (lit " Rock ") (lit "ROCK")
      (by decide) hv).2.2.2.1.trans (by decide)⟩

/-- C18: for every song reachable from construction by setter, `add_tag` and `remove_tag`
calls and every tag `t`, if `remove_tag` of `t` returns `true` then afterwards no stored
tag equals the trimmed `t` once both are lowercased, so that an immediately repeated
`remove_tag` of `t` returns `false` and an immediately following `add_tag` of `t` returns
`true`. -/
theorem remove_tag_removes_every_match (s : Song) (t : CppString) (h : s.Reachable)
    (hr : (s.remove_tag t).ret = true) :
    (∀ e ∈ (s.remove_tag t).song.tags_, to_lower_copy e ≠ to_lower_copy (trim_copy t)) ∧
    ((s.remove_tag t).song.remove_tag t).ret = false ∧
    ((s.remove_tag t).song.add_tag t).ret = true := by
  obtain ⟨_, _, htags, hnd, _⟩ := reachable_inv s h
  rcases first_match_split (to_lower_copy (trim_copy t)) s.tags_ with
    hno | ⟨pre, x, post, h1, h2, h3⟩
  · rw [remove_tag_none s t hno] at hr
    exact Bool.noConfusion hr
  · have hrem := remove_tag_some s t pre x post h1 h2 h3
    rw [h1, List.map_append, List.map_cons, List.nodup_append] at hnd
    obtain ⟨_, hnd2, hdisj⟩ := hnd
    have hpost : ∀ e ∈ post, to_lower_copy e ≠ to_lower_copy (trim_copy t) := by
      intro e he hk
      have : to_lower_copy x ∉ post.map to_lower_copy := (List.nodup_cons.mp hnd2).1
      exact this (List.mem_map.mpr ⟨e, he, hk.trans h3.symm⟩)
    have hnone : ∀ e ∈ (s.remove_tag t).song.tags_,
        to_lower_copy e ≠ to_lower_copy (trim_copy t) := by
      rw [hrem]
      intro e he
      rcases List.mem_append.mp he with he | he
      · exact h2 e he
      · exact hpost e he
    have hx : x ≠ [] := (htags x (by rw [h1]; simp)).1
    have htrim : trim_copy t ≠ [] := by
      intro hc
      rw [hc] at h3
      exact hx ((to_lower_copy_eq_nil_iff x).mp h3)
    refine ⟨hnone, ?_, ?_⟩
    · rw [remove_tag_none _ t hnone]
    · rw [add_tag_new _ t htrim hnone]

/-- Witness of C18: the example song, with tags "classic" and "piano", after removing
" PIANO ". -/
theorem remove_tag_removes_every_match_witness :
    song_imagine.Reachable ∧ (song_imagine.remove_tag (lit " PIANO ")).ret = true ∧
      ((song_imagine.remove_tag (lit " PIANO ")).song.remove_tag (lit " PIANO ")).ret = false ∧
      ((song_imagine.remove_tag (lit " PIANO ")).song.add_tag (lit " PIANO ")).ret = true :=
  have hreach : song_imagine.Reachable :=
    ⟨1, lit "Imagine", lit "John Lennon", 183, 4,
      [.add_tag (lit "classic"), .add_tag (lit "piano")], rfl⟩
  ⟨hreach, by decide,
    (remove_tag_removes_every_match song_imagine (lit " PIANO ") hreach (by decide)).2.1,
    (remove_tag_removes_every_match song_imagine (lit " PIANO ") hreach (by decide)).2.2⟩

/-- C19: for every valid song reachable from construction by setter, `add_tag` and
`remove_tag` calls, `matches_keyword` is `true` for the title, for the artist and for every
stored tag, and also for every variant of these up to letter case and leading / trailing
whitespace. -/
theorem matches_keyword_own_fields (s : Song) (h : s.Reachable) (hv : s.valid_ = true) :
    (∀ kw, case_space_variant s.title_ kw → s.matches_keyword kw = true) ∧
    (∀ kw, case_space_variant s.artist_ kw → s.matches_keyword kw = true) ∧
    (∀ tag ∈ s.tags_, ∀ kw, case_space_variant tag kw → s.matches_keyword kw = true) ∧
    s.matches_keyword s.title_ = true ∧ s.matches_keyword s.artist_ = true ∧
    (∀ tag ∈ s.tags_, s.matches_keyword tag = true) := by
  obtain ⟨ht, ha, htags, _, hval⟩ := reachable_inv s h
  obtain ⟨htne, hane, _⟩ := hval hv
  have hk : ∀ x : CppString, x ≠ [] → trim_copy x = x → to_lower_copy (trim_copy x) ≠ [] := by
    intro x hx hxt hc
    rw [hxt] at hc
    exact hx ((to_lower_copy_eq_nil_iff x).mp hc)
  have h1 : s.matches_keyword s.title_ = true := by
    rw [matches_keyword_eq s _ (hk _ htne ht), ht]
    exact Or.inl List.infix_rfl
  have h2 : s.matches_keyword s.artist_ = true := by
    rw [matches_keyword_eq s _ (hk _ hane ha), ha]
    exact Or.inr (Or.inl List.infix_rfl)
  have h3 : ∀ tag ∈ s.tags_, s.matches_keyword tag = true := by
    intro tag hmem
    obtain ⟨hne, htr⟩ := htags tag hmem
    rw [matches_keyword_eq s _ (hk _ hne htr), htr]
    exact Or.inr (Or.inr ⟨tag, hmem, List.infix_rfl⟩)
  refine ⟨?_, ?_, ?_, h1, h2, h3⟩
  · intro kw hkw
    rw [matches_keyword_variant s _ kw hkw]; exact h1
  · intro kw hkw
    rw [matches_keyword_variant s _ kw hkw]; exact h2
  · intro tag hmem kw hkw
    rw [matches_keyword_variant s _ kw hkw]; exact h3 tag hmem

/-- Witness of C19: the example song is found by its title, also in capitals. -/
theorem matches_keyword_own_fields_witness :
    song_imagine.Reachable ∧ song_imagine.valid_ = true ∧
      song_imagine.matches_keyword song_imagine.title_ = true ∧
      song_imagine.matches_keyword (lit "IMAGINE") = true :=
  have hreach : song_imagine.Reachable :=
    ⟨1, lit "Imagine", lit "John Lennon", 183, 4,
      [.add_tag (lit "classic"), .add_tag (lit "piano")], rfl⟩
  ⟨hreach, by decide, (matches_keyword_own_fields song_imagine hreach (by decide)).2.2.2.1,
    (matches_keyword_own_fields song_imagine hreach (by decide)).1 (lit "IMAGINE")
      ⟨[], [], [], [], song_imagine.title_, lit "IMAGINE", all_space_of_all _ rfl,
        all_space_of_all _ rfl, all_space_of_all _ rfl, all_space_of_all _ rfl,
        by simp, by simp, by decide⟩⟩

/-- C20: for all songs `a` and `b` exactly one of these holds: `a < b`; `b < a`; `a` and `b`
have equal rating, equal title and equal id. Hence two songs with different ids are
comparable, and `a < b` and `b < a` never hold together. -/
theorem operator_lt_trichotomy (a b : Song) :
    ((a.operator_lt b = true ∧ b.operator_lt a = false ∧
        ¬ (a.rating_ = b.rating_ ∧ a.title_ = b.title_ ∧ a.id_ = b.id_)) ∨
      (a.operator_lt b = false ∧ b.operator_lt a = true ∧
        ¬ (a.rating_ = b.rating_ ∧ a.title_ = b.title_ ∧ a.id_ = b.id_)) ∨
      (a.operator_lt b = false ∧ b.operator_lt a = false ∧
        (a.rating_ = b.rating_ ∧ a.title_ = b.title_ ∧ a.id_ = b.id_))) ∧
    (a.id_ ≠ b.id_ → (a.operator_lt b = true ∨ b.operator_lt a = true)) ∧
    ¬ (a.operator_lt b = true ∧ b.operator_lt a = true) := by
  have hinc := operator_lt_incomparable_iff a b
  have hasym : ¬ (a.operator_lt b = true ∧ b.operator_lt a = true) := by
    rintro ⟨h1, h2⟩
    rw [operator_lt_asymm a b h1] at h2
    exact Bool.noConfusion h2
  refine ⟨?_, ?_, hasym⟩
  · cases hab : a.operator_lt b <;> cases hba : b.operator_lt a
    · exact Or.inr (Or.inr ⟨rfl, rfl, hinc.mp ⟨hab, hba⟩⟩)
    · refine Or.inr (Or.inl ⟨rfl, rfl, fun he => ?_⟩)
      have := (hinc.mpr he).2
      rw [hba] at this
      exact Bool.noConfusion this
    · refine Or.inl ⟨rfl, rfl, fun he => ?_⟩
      have := (hinc.mpr he).1
      rw [hab] at this
      exact Bool.noConfusion this
    · exact absurd ⟨hab, hba⟩ hasym
  · intro hid
    by_contra hcon
    push_neg at hcon
    have h1 : a.operator_lt b = false := by simpa using hcon.1
    have h2 : b.operator_lt a = false := by simpa using hcon.2
    exact hid (hinc.mp ⟨h1, h2⟩).2.2

/-! ### Runs of constructor calls and the 32-bit counter -/

/-- A run of `m` constructor calls with the same valid arguments: the objects carry the
counter values `x`, `x + 1`, ... as stored in 32 bits. -/
theorem construct_all_replicate (a : CtorArgs) (h1 : trim_copy a.title ≠ [])
    (h2 : trim_copy a.artist ≠ []) (h3 : ¬ a.duration_sec ≤ 0)
    (h4 : ¬ (a.rating < 1 ∨ a.rating > 5)) : ∀ (m : Nat) (x : Int),
    construct_all (wrap_int x) (List.replicate m a)
      = (List.range m).map (fun (i : Nat) =>
          (⟨wrap_int (x + (i : Int)), trim_copy a.title, trim_copy a.artist, a.duration_sec,
            a.rating, [], true⟩ : Song)) := by
  intro m
  induction m with
  | zero => intro x; rfl
  | succ m ih =>
    intro x
    rw [List.replicate_succ, List.range_succ_eq_map]
    unfold construct_all
    rw [ctor_ok _ _ _ _ _ h1 h2 h3 h4, wrap_int_succ, ih (x + 1)]
    simp only [List.map_cons, List.map_map, Nat.cast_zero, add_zero, List.cons.injEq, true_and]
    apply List.map_congr_left
    intro i _
    show _ = (⟨wrap_int (x + ((i + 1 : Nat) : Int)), _, _, _, _, _, _⟩ : Song)
    rw [show x + 1 + (i : Int) = x + ((i + 1 : Nat) : Int) by push_cast; omega]

/-- At `INT_MAX` the increment of the counter wraps around to `INT_MIN`; the object still
gets the id `INT_MAX`. -/
theorem ctor_counter_wrap_eval :
    (Song.ctor 2147483647 (lit "A") (lit "B") 1 1).song.id_ = 2147483647 ∧
      (Song.ctor 2147483647 (lit "A") (lit "B") 1 1).next_id_ = -2147483648 := by
  decide

/-- C11, counterexample: a run of 2147483648 valid constructions from the counter value 1.
All 2147483648 objects are valid, and the 2147483648-th of them has the id -2147483648
(the counter has wrapped around), not 2147483648: the ids are not 1, 2, 3, ... and not
strictly increasing. -/
theorem construct_all_ids_wrap_counterexample :
    ((construct_all 1 (List.replicate 2147483648 (⟨lit "A", lit "B", 1, 1⟩ : CtorArgs))).filter
      (fun s => s.valid_)).length = 2147483648 ∧
    (((construct_all 1 (List.replicate 2147483648 (⟨lit "A", lit "B", 1, 1⟩ : CtorArgs))).filter
      (fun s => s.valid_)).map (fun s => s.id_))[0]? = some 1 ∧
    (((construct_all 1 (List.replicate 2147483648 (⟨lit "A", lit "B", 1, 1⟩ : CtorArgs))).filter
      (fun s => s.valid_)).map (fun s => s.id_))[2147483647]? = some (-2147483648) ∧
    ¬ ((((construct_all 1 (List.replicate 2147483648
          (⟨lit "A", lit "B", 1, 1⟩ : CtorArgs))).filter (fun s => s.valid_)).map
          (fun s => s.id_))
        = (List.range ((construct_all 1 (List.replicate 2147483648
            (⟨lit "A", lit "B", 1, 1⟩ : CtorArgs))).filter (fun s => s.valid_)).length).map
              (fun (i : Nat) => (i : Int) + 1)) := by
  have hrun := construct_all_replicate (⟨lit "A", lit "B", 1, 1⟩ : CtorArgs)
    (by decide) (by decide) (by decide) (by decide) 2147483648 1
  rw [wrap_int_of_range 1 (by omega) (by omega)] at hrun
  have hfilter : (construct_all 1 (List.replicate 2147483648
      (⟨lit "A", lit "B", 1, 1⟩ : CtorArgs))).filter (fun s => s.valid_)
      = construct_all 1 (List.replicate 2147483648 (⟨lit "A", lit "B", 1, 1⟩ : CtorArgs)) := by
    rw [List.filter_eq_self, hrun]
    intro s hs
    obtain ⟨i, _, rfl⟩ := List.mem_map.mp hs
    rfl
  have hlen : (construct_all 1 (List.replicate 2147483648
      (⟨lit "A", lit "B", 1, 1⟩ : CtorArgs))).length = 2147483648 := by
    rw [hrun, List.length_map, List.length_range]
  have hfirst : ((construct_all 1 (List.replicate 2147483648
      (⟨lit "A", lit "B", 1, 1⟩ : CtorArgs))).map (fun s => s.id_))[0]? = some 1 := by
    rw [hrun, List.map_map, List.getElem?_map, List.getElem?_range (by omega)]
    show some (wrap_int (1 + ((0 : Nat) : Int))) = some 1
    rw [wrap_int_of_range _ (by omega) (by omega)]
    rfl
  have hlast : ((construct_all 1 (List.replicate 2147483648
      (⟨lit "A", lit "B", 1, 1⟩ : CtorArgs))).map (fun s => s.id_))[2147483647]?
      = some (-2147483648) := by
    rw [hrun, List.map_map, List.getElem?_map, List.getElem?_range (by omega)]
    show some (wrap_int (1 + ((2147483647 : Nat) : Int))) = some (-2147483648)
    unfold wrap_int
    norm_num
  rw [hfilter, hlen]
  refine ⟨rfl, hfirst, hlast, ?_⟩
  intro heq
  have h := hlast
  rw [heq, List.getElem?_map, List.getElem?_range (by omega)] at h
  simp only [Option.map_some', Option.some.injEq] at h
  norm_num at h

/-- C11, as amended: starting from the counter value 1, for every finite sequence of
constructor calls (valid and invalid inputs mixed in any way) of which at most 2147483647
are valid, the ids of the valid objects are, in construction order, 1, 2, 3, ...: the
k-th valid object has id exactly k (the first has id 1), the ids are strictly increasing
and pairwise distinct; and a failed construction does not advance the counter. -/
theorem construct_all_ids_count_up (l : List CtorArgs)
    (hbound : ((construct_all 1 l).filter (fun s => s.valid_)).length ≤ 2147483647) :
    (((construct_all 1 l).filter (fun s => s.valid_)).map (fun s => s.id_)
      = (List.range ((construct_all 1 l).filter (fun s => s.valid_)).length).map
          (fun (i : Nat) => (i : Int) + 1)) ∧
    (∀ (k : Nat) (h : k < ((construct_all 1 l).filter (fun s => s.valid_)).length),
      (((construct_all 1 l).filter (fun s => s.valid_)).get ⟨k, h⟩).id_ = (k : Int) + 1) ∧
    (((construct_all 1 l).filter (fun s => s.valid_)).map (fun s => s.id_)).Pairwise (· < ·) ∧
    (((construct_all 1 l).filter (fun s => s.valid_)).map (fun s => s.id_)).Nodup ∧
    (∀ (n : Int) (a : CtorArgs),
      (Song.ctor n a.title a.artist a.duration_sec a.rating).song.valid_ = false →
      (Song.ctor n a.title a.artist a.duration_sec a.rating).next_id_ = n) := by
  have hids : ((construct_all 1 l).filter (fun s => s.valid_)).map (fun s => s.id_)
      = (List.range ((construct_all 1 l).filter (fun s => s.valid_)).length).map
          (fun (i : Nat) => (i : Int) + 1) := by
    rw [construct_all_ids l 1 (by omega) (by omega)]
    apply List.map_congr_left
    intro i _
    omega
  have hpair : ((List.range ((construct_all 1 l).filter (fun s => s.valid_)).length).map
      (fun (i : Nat) => (i : Int) + 1)).Pairwise (· < ·) := by
    rw [List.pairwise_map]
    exact (List.pairwise_lt_range _).imp (fun h => by omega)
  refine ⟨hids, ?_, ?_, ?_, ?_⟩
  · intro k h
    have h1 : (((construct_all 1 l).filter (fun s => s.valid_)).map (fun s => s.id_))[k]?
        = some ((k : Int) + 1) := by
      rw [hids, List.getElem?_map, List.getElem?_range h]
      rfl
    rw [List.getElem?_map, List.getElem?_eq_getElem h] at h1
    simpa using h1
  · rw [hids]; exact hpair
  · rw [hids]; exact hpair.imp (fun h => ne_of_lt h)
  · intro n a hv
    rcases ctor_counter n a.title a.artist a.duration_sec a.rating with ⟨_, hn⟩ | ⟨hv', _, _⟩
    · exact hn
    · rw [hv] at hv'; exact absurd hv' (by simp)

/-- Witness of C11 as amended: a valid, a failed (blank title) and a valid construction;
the two valid objects have the ids 1 and 2. -/
theorem construct_all_ids_count_up_witness :
    ((construct_all 1 [⟨lit "B", lit "artist", 200, 5⟩, ⟨lit "  ", lit "artist", 200, 3⟩,
        ⟨lit "A", lit "artist", 200, 5⟩]).filter (fun s => s.valid_)).length ≤ 2147483647 ∧
      ((construct_all 1 [⟨lit "B", lit "artist", 200, 5⟩, ⟨lit "  ", lit "artist", 200, 3⟩,
        ⟨lit "A", lit "artist", 200, 5⟩]).filter (fun s => s.valid_)).map (fun s => s.id_)
        = [1, 2] :=
  ⟨by decide,
    (construct_all_ids_count_up [⟨lit "B", lit "artist", 200, 5⟩,
      ⟨lit "  ", lit "artist", 200, 3⟩, ⟨lit "A", lit "artist", 200, 5⟩] (by decide)).1.trans
      (by decide)⟩
